import Mathlib

/-!
Verification development for the `pkg/registries` package of
openshift/runtime-utils: merging of ICSP/IDMS/ITMS mirror policies and
projection into a v2 registries configuration.

The repository snapshot contains only the package's test files
(`registries_test.go`); the implementation (`registries.go`) is absent.
The executable definitions below are therefore modelled from the
specification (spec.md), with every behavioural choice cross-checked
against the concrete expectations of the repository's tests
(`TestScopeIsNestedInsideScope`, `TestIsValidRegistriesConfScope`,
`TestMirrorsContainsARealMirror`, `mergedMirrorsetsTestcases`,
`TestMirrorsAdjustedForNestedScope`, `TestEditRegistriesConfig`), which
are reproduced as theorems further down.  Where the spec's prose
contradicts a test expectation the definitions follow the tests, and the
discrepancy is recorded by a corrected claim.
-/

/-- Lexicographic strict order on character lists (byte-wise comparison,
used wherever the Go code compares or sorts scope strings). -/
def lexLt : List Char → List Char → Bool
  | [], [] => false
  | [], _ :: _ => true
  | _ :: _, [] => false
  | a :: as, b :: bs => a < b || (a = b && lexLt as bs)

/-- Strict lexicographic order on strings, via their character data. -/
def strLt (a b : String) : Bool := lexLt a.data b.data

/-- Reflexive lexicographic order on strings. -/
def strLe (a b : String) : Bool := strLt a b || a = b

/-- The host part of a scope: everything before the first `/`, with any
`:port` suffix removed.  Used by the wildcard branch of the scope
nesting predicate. -/
def hostPart (s : List Char) : List Char :=
  (s.takeWhile (· != '/')).takeWhile (· != ':')

/-- Modelled from the spec: §4.1 scope predicate, character-list core.
If the super scope is a wildcard `*.W` it must contain no path component
and the sub scope's host (port stripped) must end in `.W`; otherwise the
host:port parts must be equal and the super scope's remainder must be
empty, equal to the sub scope's remainder, or a `/`-delimited path
whose extension the sub scope's remainder is.  All 24 vectors of
`TestScopeIsNestedInsideScope` are proved below. -/
def scopeNestedChars (sub sup : List Char) : Bool :=
  if sup.take 2 = ['*', '.'] then
    !(sup.contains '/') && List.isSuffixOf (sup.drop 1) (hostPart sub)
  else if sub.takeWhile (· != '/') ≠ sup.takeWhile (· != '/') then false
  else if sup.dropWhile (· != '/') = [] then true
  else if sup.dropWhile (· != '/') = sub.dropWhile (· != '/') then true
  else List.isPrefixOf (sup.dropWhile (· != '/') ++ ['/']) (sub.dropWhile (· != '/'))

/-- Modelled from the spec: `ScopeIsNestedInsideScope(subScope, superScope)`,
the C1 scope predicate (implementation missing from the snapshot; its
behaviour is pinned by `TestScopeIsNestedInsideScope`). -/
def scopeIsNestedInsideScope (sub sup : String) : Bool :=
  scopeNestedChars sub.data sup.data

/-- A scope is a wildcard scope iff it starts with `*.`. -/
def isWildcardScope (s : String) : Bool := decide (s.data.take 2 = ['*', '.'])

/-- Modelled from the spec: validity of the part after `*.` in a wildcard
scope: no `/`, `:` or `*`, and at least two dot-separated labels. -/
def validWildcardRest (rest : List Char) : Bool :=
  !(rest.contains '/') && !(rest.contains ':') && !(rest.contains '*') &&
    rest.contains '.'

/-- Modelled from the spec: `IsValidRegistriesConfScope(s)`.  Wildcard
scopes are `*.rest` with `rest` as in `validWildcardRest`; concrete
scopes are abstracted to "nonempty and containing no `*`" (the host,
port and namespace syntax is not needed by any claim; the test vectors
of `TestIsValidRegistriesConfScope` are all proved below). -/
def IsValidRegistriesConfScope (s : String) : Bool :=
  if s.data.take 2 = ['*', '.'] then validWildcardRest (s.data.drop 2)
  else !(s.data.isEmpty) && !(s.data.contains '*')

/-- Does a mirror list contain a mirror different from the source?
Modelled from the spec: `mirrorsContainsARealMirror` (§4.3); behaviour
pinned by `TestMirrorsContainsARealMirror`. -/
def mirrorsContainsARealMirror (source : String) (mirrors : List String) : Bool :=
  mirrors.any (fun m => decide (m ≠ source))

/-- Modelled from the spec: the C2 topological graph over mirror names.
`nodes` is kept in first-seen insertion order; `edges` is the deduplicated
list of precedence edges. -/
structure TopoGraph where
  nodes : List String
  edges : List (String × String)
deriving DecidableEq

/-- The empty topological graph. -/
def emptyTopoGraph : TopoGraph := ⟨[], []⟩

/-- Add a node, keeping first-seen insertion order and node uniqueness. -/
def addNode (g : TopoGraph) (n : String) : TopoGraph :=
  if n ∈ g.nodes then g else { g with nodes := g.nodes ++ [n] }

/-- Add an edge; repeated edges are idempotent (spec §4.2 step 1). -/
def addEdge (g : TopoGraph) (e : String × String) : TopoGraph :=
  if e ∈ g.edges then g else { g with edges := g.edges ++ [e] }

/-- The adjacent pairs of a sequence, each one an ordering edge. -/
def adjPairs : List String → List (String × String)
  | [] => []
  | [_] => []
  | a :: b :: t => (a, b) :: adjPairs (b :: t)

/-- Modelled from the spec: `topoGraph.AddSequence(seq)` — every element
becomes a node (first-seen order) and every adjacent pair an edge. -/
def addSequence (g : TopoGraph) (seq : List String) : TopoGraph :=
  (adjPairs seq).foldl addEdge (seq.foldl addNode g)

/-- One step of reachability closure: add every node that is the head of
an edge whose tail is already in the set. -/
def stepR (g : TopoGraph) (s : List String) : List String :=
  s ++ g.nodes.filter (fun v =>
    decide (v ∉ s) && g.edges.any (fun e => decide (e.1 ∈ s) && decide (e.2 = v)))

/-- Iterate `stepR` a fixed number of times. -/
def reachAux (g : TopoGraph) : Nat → List String → List String
  | 0, s => s
  | n + 1, s => reachAux g n (stepR g s)

/-- All nodes reachable from `u` (including `u` itself): enough closure
steps to saturate. -/
def reachList (g : TopoGraph) (u : String) : List String :=
  reachAux g (g.nodes.length + 1) [u]

/-- Boolean reachability relation of the graph. -/
def reachB (g : TopoGraph) (u v : String) : Bool := decide (v ∈ reachList g u)

/-- Two mirror names lie in the same strongly-connected component iff each
reaches the other (spec §4.2 step 2). -/
def sameSCC (g : TopoGraph) (u v : String) : Bool := reachB g u v && reachB g v u

/-- The lexicographically smallest string of a list (`""` if empty). -/
def minStr : List String → String
  | [] => ""
  | x :: xs => xs.foldl (fun a b => if strLt b a then b else a) x

/-- Tie-break key of the condensed vertex of `u`: the smallest member of
its strongly-connected component among the remaining nodes. -/
def sccKey (g : TopoGraph) (remaining : List String) (u : String) : String :=
  minStr (remaining.filter (fun v => sameSCC g u v))

/-- A condensed vertex is ready when no edge from a remaining node outside
the component enters the component (Kahn's algorithm, spec §4.2 step 3). -/
def isReadyV (g : TopoGraph) (remaining : List String) (u : String) : Bool :=
  g.edges.all (fun e =>
    !(sameSCC g u e.2 && decide (e.1 ∈ remaining)) || sameSCC g u e.1)

/-- Pick the element whose key is lexicographically smallest (first such
element on ties; `""` for an empty list). -/
def pickBest (key : String → String) : List String → String
  | [] => ""
  | c :: cs => cs.foldl (fun b x => if strLt (key x) (key b) then x else b) c

/-- Modelled from the spec: the emission loop of `topoGraph.Result()`
(Kahn's algorithm on the SCC condensation).  Among ready condensed
vertices the one with the lexicographically smallest member is emitted,
its members in first-seen insertion order.  The spec's §4.2 prose asks
for a first-seen tie-break instead, but the repository's tests
(`TestEditRegistriesConfig`, case "Confict", and `mergedMirrorsetsTestcases`,
case "Example") pin the lexicographic tie-break used here; the `pool`
fallback for "no ready vertex" is proved unreachable below. -/
def kahnPick (g : TopoGraph) (remaining : List String) : String :=
  pickBest (sccKey g remaining)
    (if remaining.filter (fun u => isReadyV g remaining u) = [] then remaining
      else remaining.filter (fun u => isReadyV g remaining u))

/-- The emission loop: emit the picked vertex's component (its members in
first-seen insertion order, since `remaining` preserves node order) and
recurse on the rest; the fuel is the number of nodes. -/
def kahnLoop (g : TopoGraph) : Nat → List String → List String
  | 0, remaining => remaining
  | fuel + 1, remaining =>
    if remaining = [] then []
    else
      remaining.filter (fun v => sameSCC g (kahnPick g remaining) v) ++
        kahnLoop g fuel (remaining.filter (fun v => !(sameSCC g (kahnPick g remaining) v)))

/-- Modelled from the spec: `topoGraph.Result()` — one deterministic
linearisation of the graph (spec §4.2 steps 3-5). -/
def topoResult (g : TopoGraph) : List String :=
  kahnLoop g g.nodes.length g.nodes

/-- Build a graph from a list of mirror sequences. -/
def buildGraph (seqs : List (List String)) : TopoGraph :=
  seqs.foldl addSequence emptyTopoGraph

/-- One `(source, mirrors, mirrorSourcePolicy)` entry of an ICSP, IDMS or
ITMS object (`RepositoryDigestMirrors` / `ImageDigestMirrors` /
`ImageTagMirrors`); ICSP entries always carry `msp = ""`. -/
structure MirrorEntry where
  source : String
  mirrors : List String
  msp : String
deriving DecidableEq

/-- Modelled from the spec: `mergedMirrorSet` — one source after merging
(§3 data model). `msp` is `"NeverContactSource"` or `""`. -/
structure MergedMirrorSet where
  source : String
  mirrors : List String
  msp : String
deriving DecidableEq

/-- The `NeverContactSource` mirror source policy value. -/
def neverContact : String := "NeverContactSource"

/-- Append an element to a list unless it is already present (keeps
first-seen order). -/
def addUnique (l : List String) (x : String) : List String :=
  if x ∈ l then l else l ++ [x]

/-- The distinct sources of a list of entries, in first-seen order. -/
def uniqueSources (entries : List MirrorEntry) : List String :=
  (entries.map MirrorEntry.source).foldl addUnique []

/-- Does any entry for source `s` contain a real mirror (one different
from `s`)?  A source failing this is elided (spec §4.3 step 2). -/
def sourceHasRealMirror (entries : List MirrorEntry) (s : String) : Bool :=
  entries.any (fun e => decide (e.source = s) && mirrorsContainsARealMirror s e.mirrors)

/-- Did some entry for source `s` declare `NeverContactSource`
(spec §4.3 step 4)? -/
def sourceNever (entries : List MirrorEntry) (s : String) : Bool :=
  entries.any (fun e => decide (e.source = s) && decide (e.msp = neverContact))

/-- The per-source topological graph: every mirror sequence of an entry
for `s`, accumulated in declaration order (spec §4.3 step 3). -/
def graphForSource (entries : List MirrorEntry) (s : String) : TopoGraph :=
  ((entries.filter (fun e => decide (e.source = s))).map MirrorEntry.mirrors).foldl
    addSequence emptyTopoGraph

/-- The merged ordered mirror list of source `s`. -/
def mergedMirrorsOf (entries : List MirrorEntry) (s : String) : List String :=
  topoResult (graphForSource entries s)

/-- Sort strings lexicographically (the merger's output order). -/
def sortStr (l : List String) : List String :=
  List.insertionSort (fun a b => strLe a b = true) l

/-- Modelled from the spec: the C3 mirror-set merger over a flat list of
entries — group by source, drop sources with no real mirror, merge each
source's sequences through the topological graph, emit sorted by source
(spec §4.3); behaviour pinned by `mergedMirrorsetsTestcases`. -/
def mergedMirrorSets (entries : List MirrorEntry) : List MergedMirrorSet :=
  (sortStr ((uniqueSources entries).filter (fun s => sourceHasRealMirror entries s))).map
    (fun s =>
      { source := s, mirrors := mergedMirrorsOf entries s,
        msp := if sourceNever entries s then neverContact else "" })

/-- Modelled from the spec: `mergedDigestMirrorSets(idmsRules, icspRules)` —
the digest pipeline merges the IDMS and ICSP entries together (pinned by
`TestEditRegistriesConfig`, case "Confict": a source shared between an
IDMS and an ICSP object yields one merged set).  Each input object is a
list of entries; IDMS entries precede ICSP entries. -/
def mergedDigestMirrorSets (idms icsp : List (List MirrorEntry)) : List MergedMirrorSet :=
  mergedMirrorSets (idms.flatten ++ icsp.flatten)

/-- Modelled from the spec: `mergedTagMirrorSets(itmsRules)` — the tag
pipeline merges the ITMS entries. -/
def mergedTagMirrorSets (itms : List (List MirrorEntry)) : List MergedMirrorSet :=
  mergedMirrorSets itms.flatten

/-- A `[[registry.mirror]]` endpoint of the v2 configuration. -/
structure Endpoint where
  location : String
  insecure : Bool
  pullFrom : String
deriving DecidableEq

/-- A `[[registry]]` record of the v2 configuration: a wildcard prefix
`pfx` or a concrete `location`, the two flag bits and the ordered
mirror endpoints. -/
structure Registry where
  pfx : String
  location : String
  insecure : Bool
  blocked : Bool
  mirrors : List Endpoint
deriving DecidableEq

/-- The whole v2 configuration value (the fields the claims are about). -/
structure V2RegistriesConf where
  unqualifiedSearchRegistries : List String
  registries : List Registry
deriving DecidableEq

/-- `pull-from-mirror = "digest-only"`. -/
def mirrorByDigestOnly : String := "digest-only"

/-- `pull-from-mirror = "tag-only"`. -/
def mirrorByTagOnly : String := "tag-only"

/-- Scope lookup (spec §4.4 step 2): `s` matches the list iff it is
nested inside some listed scope. -/
def scopeMatchesAny (scopes : List String) (s : String) : Bool :=
  scopes.any (fun t => scopeIsNestedInsideScope s t)

/-- Build one mirror endpoint: location, `Insecure` by scope lookup, and
the pipeline's `PullFromMirror` tag (spec §4.4 step 3). -/
def mkMirrorEndpoint (ins : List String) (pf : String) (m : String) : Endpoint :=
  { location := m, insecure := scopeMatchesAny ins m, pullFrom := pf }

/-- The tag-pipeline merged set for a source, if any. -/
def tagSetFor (tagSets : List MergedMirrorSet) (s : String) : Option MergedMirrorSet :=
  tagSets.find? (fun t => decide (t.source = s))

/-- The record for a digest-pipeline source; if the source also appears
in the tag pipeline the two are unified: digest mirrors first, then tag
mirrors, each with its own tag; `Blocked` also honours either pipeline's
`NeverContactSource` (spec §4.4 step 3). -/
def baseRecordForDigest (ins blk : List String) (tagSets : List MergedMirrorSet)
    (d : MergedMirrorSet) : Registry :=
  { pfx := "", location := d.source,
    insecure := scopeMatchesAny ins d.source,
    blocked := scopeMatchesAny blk d.source || decide (d.msp = neverContact) ||
      (match tagSetFor tagSets d.source with
        | some t => decide (t.msp = neverContact)
        | none => false),
    mirrors := d.mirrors.map (mkMirrorEndpoint ins mirrorByDigestOnly) ++
      (match tagSetFor tagSets d.source with
        | some t => t.mirrors.map (mkMirrorEndpoint ins mirrorByTagOnly)
        | none => []) }

/-- The record for a source that appears only in the tag pipeline. -/
def baseRecordForTag (ins blk : List String) (t : MergedMirrorSet) : Registry :=
  { pfx := "", location := t.source,
    insecure := scopeMatchesAny ins t.source,
    blocked := scopeMatchesAny blk t.source || decide (t.msp = neverContact),
    mirrors := t.mirrors.map (mkMirrorEndpoint ins mirrorByTagOnly) }

/-- The records produced from the merged mirror sets before scope
processing: digest-pipeline records (unified with the tag pipeline where
the source is shared) followed by tag-only records. -/
def baseRecords (ins blk : List String) (digestSets tagSets : List MergedMirrorSet) :
    List Registry :=
  digestSets.map (baseRecordForDigest ins blk tagSets) ++
    (tagSets.filter (fun t => digestSets.all (fun d => decide (d.source ≠ t.source)))).map
      (baseRecordForTag ins blk)

/-- The relative suffix `childScope[len(parentScope):]` used when carving
a nested scope out of a mirrored one. -/
def scopeSuffix (parentSc childSc : String) : String :=
  ⟨childSc.data.drop parentSc.data.length⟩

/-- Modelled from the spec: `mirrorsAdjustedForNestedScope(parentScope,
childScope, mirrors)` (§4.5): requires the child nested inside the
non-wildcard parent, and appends the relative suffix to every mirror
location; behaviour pinned by `TestMirrorsAdjustedForNestedScope`. -/
def mirrorsAdjustedForNestedScope (parentScope childScope : String)
    (mirrors : List Endpoint) : Except String (List Endpoint) :=
  if !(scopeIsNestedInsideScope childScope parentScope) || isWildcardScope parentScope then
    .error "internal error: mismatched scopes"
  else
    .ok (mirrors.map (fun m =>
      { m with location := m.location ++ scopeSuffix parentScope childScope }))

/-- Set the flag bit of the current scope-processing phase. -/
def setFlag (isBlockedPhase : Bool) (r : Registry) : Registry :=
  if isBlockedPhase then { r with blocked := true } else { r with insecure := true }

/-- Modelled from the spec: processing of one `insecure`/`blocked` scope
(§4.4 step 4).  If the scope equals an existing record's location the
phase's flag is set in place; else if it is nested inside some record's
location a record for it is synthesized, inheriting that record's
mirrors with the relative suffix appended, and appended to the list;
else a standalone record is appended (`Prefix`-only for wildcards).
New records compute both flag bits by scope lookup (pinned by
`TestEditRegistriesConfig`, cases "insecure+blocked" and
"imageContentSourcePolicy"). -/
def processScope (isBlockedPhase : Bool) (ins blk : List String)
    (recs : List Registry) (sc : String) : Except String (List Registry) :=
  if recs.any (fun r => decide (r.location = sc)) then
    .ok (recs.map (fun r => if r.location = sc then setFlag isBlockedPhase r else r))
  else
    match recs.find? (fun r => scopeIsNestedInsideScope sc r.location) with
    | some r =>
      match mirrorsAdjustedForNestedScope r.location sc r.mirrors with
      | .error e => .error e
      | .ok ms =>
        .ok (recs ++ [⟨"", sc, scopeMatchesAny ins sc, scopeMatchesAny blk sc, ms⟩])
    | none =>
      .ok (recs ++ [if isWildcardScope sc then
          ⟨sc, "", scopeMatchesAny ins sc, scopeMatchesAny blk sc, []⟩
        else
          ⟨"", sc, scopeMatchesAny ins sc, scopeMatchesAny blk sc, []⟩])

/-- Process a list of scopes in order, threading the record list. -/
def applyScopes (isBlockedPhase : Bool) (ins blk : List String) :
    List Registry → List String → Except String (List Registry)
  | recs, [] => .ok recs
  | recs, sc :: rest =>
    match processScope isBlockedPhase ins blk recs sc with
    | .error e => .error e
    | .ok recs2 => applyScopes isBlockedPhase ins blk recs2 rest

/-- Modelled from the spec: `EditRegistriesConfig(config, insecureScopes,
blockedScopes, icspRules, idmsRules, itmsRules)` (§4.4): validate the
scope lists, build the two merged pipelines, project them to records,
then process the blocked scopes and afterwards the insecure scopes
(phase order pinned by `TestEditRegistriesConfig`, case
"insecure+blocked").  On any error the input configuration is left
unchanged (the error is returned instead). -/
def EditRegistriesConfig (cfg : V2RegistriesConf) (insecureScopes blockedScopes : List String)
    (icsp idms itms : List (List MirrorEntry)) : Except String V2RegistriesConf :=
  if !(insecureScopes ++ blockedScopes).all IsValidRegistriesConfScope then
    .error "invalid scope"
  else
    match applyScopes true insecureScopes blockedScopes
        (baseRecords insecureScopes blockedScopes
          (mergedDigestMirrorSets idms icsp) (mergedTagMirrorSets itms))
        blockedScopes with
    | .error e => .error e
    | .ok recs1 =>
      match applyScopes false insecureScopes blockedScopes recs1 insecureScopes with
      | .error e => .error e
      | .ok recs2 => .ok { cfg with registries := cfg.registries ++ recs2 }

/-- The template configuration used by `TestEditRegistriesConfig`. -/
def templateConf : V2RegistriesConf :=
  ⟨["registry.access.redhat.com", "docker.io"], []⟩

/-- Input of test case "insecure+blocked": the insecure scope list. -/
def ibInsecure : List String := ["registry.access.redhat.com", "insecure.com", "common.com"]

/-- Input of test case "insecure+blocked": the blocked scope list. -/
def ibBlocked : List String := ["blocked.com", "common.com", "docker.io"]

/-- Expected registries of test case "insecure+blocked". -/
def ibWant : List Registry :=
  [⟨"", "blocked.com", false, true, []⟩,
   ⟨"", "common.com", true, true, []⟩,
   ⟨"", "docker.io", false, true, []⟩,
   ⟨"", "registry.access.redhat.com", true, false, []⟩,
   ⟨"", "insecure.com", true, false, []⟩]

/-- Input of test case "imageContentSourcePolicy": insecure scopes. -/
def icspTInsecure : List String :=
  ["insecure.com", "*.insecure-example.com", "*.insecure.blocked-example.com"]

/-- Input of test case "imageContentSourcePolicy": blocked scopes. -/
def icspTBlocked : List String :=
  ["blocked.com", "*.blocked.insecure-example.com", "*.blocked-example.com"]

/-- Input of test case "imageContentSourcePolicy": the ICSP rules. -/
def icspTRules : List (List MirrorEntry) :=
  [[⟨"insecure.com/ns-i1", ["blocked.com/ns-b1", "other.com/ns-o1"], ""⟩,
    ⟨"blocked.com/ns-b/ns2-b", ["other.com/ns-o2", "insecure.com/ns-i2"], ""⟩,
    ⟨"other.com/ns-o3", ["insecure.com/ns-i2", "blocked.com/ns-b/ns3-b", "foo.insecure-example.com/bar"], ""⟩]]

/-- Expected registries of test case "imageContentSourcePolicy". -/
def icspTWant : List Registry :=
  [⟨"", "blocked.com/ns-b/ns2-b", false, true,
     [⟨"other.com/ns-o2", false, "digest-only"⟩,
      ⟨"insecure.com/ns-i2", true, "digest-only"⟩]⟩,
   ⟨"", "insecure.com/ns-i1", true, false,
     [⟨"blocked.com/ns-b1", false, "digest-only"⟩,
      ⟨"other.com/ns-o1", false, "digest-only"⟩]⟩,
   ⟨"", "other.com/ns-o3", false, false,
     [⟨"insecure.com/ns-i2", true, "digest-only"⟩,
      ⟨"blocked.com/ns-b/ns3-b", false, "digest-only"⟩,
      ⟨"foo.insecure-example.com/bar", true, "digest-only"⟩]⟩,
   ⟨"", "blocked.com", false, true, []⟩,
   ⟨"*.blocked.insecure-example.com", "", true, true, []⟩,
   ⟨"*.blocked-example.com", "", false, true, []⟩,
   ⟨"", "insecure.com", true, false, []⟩,
   ⟨"*.insecure-example.com", "", true, false, []⟩,
   ⟨"*.insecure.blocked-example.com", "", true, true, []⟩]

/-- Input of test case "imageContentSourcePolicy+imageDigestMirrorSet
Confict": the IDMS rules (two objects). -/
def conflictIdms : List (List MirrorEntry) :=
  [[⟨"insecure.com/ns-dupe-i1", ["other.com/ns-o1"], ""⟩,
    ⟨"insecure.com/ns-dupe-i1", ["other.com/ns-o3"], ""⟩],
   [⟨"insecure.com/ns-idms-i1", ["other.com/ns-o1"], ""⟩]]

/-- Input of test case "…Confict": the ICSP rules (two objects). -/
def conflictIcsp : List (List MirrorEntry) :=
  [[⟨"insecure.com/ns-dupe-i1", ["other.com/ns-o2"], ""⟩],
   [⟨"insecure.com/ns-icsp-i1", ["other.com/ns-o1"], ""⟩]]

/-- Expected registries of test case "…Confict": the source shared by an
IDMS and an ICSP object yields one record with the merged mirrors. -/
def conflictWant : List Registry :=
  [⟨"", "insecure.com/ns-dupe-i1", false, false,
     [⟨"other.com/ns-o1", false, "digest-only"⟩,
      ⟨"other.com/ns-o2", false, "digest-only"⟩,
      ⟨"other.com/ns-o3", false, "digest-only"⟩]⟩,
   ⟨"", "insecure.com/ns-icsp-i1", false, false,
     [⟨"other.com/ns-o1", false, "digest-only"⟩]⟩,
   ⟨"", "insecure.com/ns-idms-i1", false, false,
     [⟨"other.com/ns-o1", false, "digest-only"⟩]⟩]

/-- Input of test case "mirrorSourcePolicy": the IDMS rules. -/
def mspIdms : List (List MirrorEntry) :=
  [[⟨"registry-a.com", ["mirror-digest-1.registry-a.com", "mirror-digest-2.registry-a.com"], "NeverContactSource"⟩,
    ⟨"registry-b.com", ["mirror-digest-1.registry-b.com", "mirror-digest-2.registry-b.com"], ""⟩,
    ⟨"registry-c.com", ["mirror-digest-1.registry-c.com", "mirror-digest-2.registry-c.com"], ""⟩]]

/-- Input of test case "mirrorSourcePolicy": the ITMS rules. -/
def mspItms : List (List MirrorEntry) :=
  [[⟨"registry-b.com", ["mirror-tag-1.registry-b.com", "mirror-tag-2.registry-b.com"], "NeverContactSource"⟩]]

/-- Expected registries of test case "mirrorSourcePolicy". -/
def mspWant : List Registry :=
  [⟨"", "registry-a.com", false, true,
     [⟨"mirror-digest-1.registry-a.com", false, "digest-only"⟩,
      ⟨"mirror-digest-2.registry-a.com", false, "digest-only"⟩]⟩,
   ⟨"", "registry-b.com", false, true,
     [⟨"mirror-digest-1.registry-b.com", false, "digest-only"⟩,
      ⟨"mirror-digest-2.registry-b.com", false, "digest-only"⟩,
      ⟨"mirror-tag-1.registry-b.com", false, "tag-only"⟩,
      ⟨"mirror-tag-2.registry-b.com", false, "tag-only"⟩]⟩,
   ⟨"", "registry-c.com", false, false,
     [⟨"mirror-digest-1.registry-c.com", false, "digest-only"⟩,
      ⟨"mirror-digest-2.registry-c.com", false, "digest-only"⟩]⟩]

/-- Input of test case "imageDigestMirrorSet + imageTagMirrorSet": IDMS. -/
def dtIdms : List (List MirrorEntry) :=
  [[⟨"registry-a.com", ["mirror-digest-1.registry-a.com", "mirror-digest-2.registry-a.com"], ""⟩,
    ⟨"registry-b.com", ["mirror-digest-1.registry-b.com", "mirror-digest-2.registry-b.com"], ""⟩]]

/-- Input of test case "imageDigestMirrorSet + imageTagMirrorSet": ITMS. -/
def dtItms : List (List MirrorEntry) :=
  [[⟨"registry-a.com", ["mirror-tag-1.registry-a.com", "mirror-tag-2.registry-a.com"], ""⟩,
    ⟨"registry-b.com", ["mirror-tag-1.registry-b.com", "mirror-tag-2.registry-b.com"], ""⟩]]

/-- Expected registries of test case "imageDigestMirrorSet + imageTagMirrorSet". -/
def dtWant : List Registry :=
  [⟨"", "registry-a.com", false, false,
     [⟨"mirror-digest-1.registry-a.com", false, "digest-only"⟩,
      ⟨"mirror-digest-2.registry-a.com", false, "digest-only"⟩,
      ⟨"mirror-tag-1.registry-a.com", false, "tag-only"⟩,
      ⟨"mirror-tag-2.registry-a.com", false, "tag-only"⟩]⟩,
   ⟨"", "registry-b.com", false, false,
     [⟨"mirror-digest-1.registry-b.com", false, "digest-only"⟩,
      ⟨"mirror-digest-2.registry-b.com", false, "digest-only"⟩,
      ⟨"mirror-tag-1.registry-b.com", false, "tag-only"⟩,
      ⟨"mirror-tag-2.registry-b.com", false, "tag-only"⟩]⟩]

/-- Input of test case "insecure+blocked scopes inside a configured
mirror": the IDMS rules. -/
def carveIdms : List (List MirrorEntry) :=
  [[⟨"primary.com/top", ["mirror.com/primary"], ""⟩,
    ⟨"primary.com/top/insecure/more-specific", ["mirror.com/more-specific"], ""⟩]]

/-- Input of test case "insecure+blocked scopes inside a configured
mirror": the ITMS rules. -/
def carveItms : List (List MirrorEntry) :=
  [[⟨"primary.com/top", ["mirror-tag.com/primary"], ""⟩,
    ⟨"primary.com/top/insecure/more-specific", ["mirror-tag.com/more-specific"], ""⟩]]

/-- Expected registries of test case "insecure+blocked scopes inside a
configured mirror". -/
def carveWant : List Registry :=
  [⟨"", "primary.com/top", false, false,
     [⟨"mirror.com/primary", false, "digest-only"⟩,
      ⟨"mirror-tag.com/primary", false, "tag-only"⟩]⟩,
   ⟨"", "primary.com/top/insecure/more-specific", true, false,
     [⟨"mirror.com/more-specific", false, "digest-only"⟩,
      ⟨"mirror-tag.com/more-specific", false, "tag-only"⟩]⟩,
   ⟨"", "primary.com/top/blocked", false, true,
     [⟨"mirror.com/primary/blocked", false, "digest-only"⟩,
      ⟨"mirror-tag.com/primary/blocked", false, "tag-only"⟩]⟩,
   ⟨"", "primary.com/top/insecure", true, false,
     [⟨"mirror.com/primary/insecure", false, "digest-only"⟩,
      ⟨"mirror-tag.com/primary/insecure", false, "tag-only"⟩]⟩]

/-- Input of test case "insecure+blocked scopes inside a configured
mirror in ImageContentSourcePolicy": the ICSP rules. -/
def carveIcsp : List (List MirrorEntry) :=
  [[⟨"primary.com/top", ["mirror.com/primary"], ""⟩,
    ⟨"primary.com/top/insecure/more-specific", ["mirror.com/more-specific"], ""⟩]]

/-- Expected registries of test case "insecure+blocked scopes inside a
configured mirror in ImageContentSourcePolicy". -/
def carveIcspWant : List Registry :=
  [⟨"", "primary.com/top", false, false,
     [⟨"mirror.com/primary", false, "digest-only"⟩]⟩,
   ⟨"", "primary.com/top/insecure/more-specific", true, false,
     [⟨"mirror.com/more-specific", false, "digest-only"⟩]⟩,
   ⟨"", "primary.com/top/blocked", false, true,
     [⟨"mirror.com/primary/blocked", false, "digest-only"⟩]⟩,
   ⟨"", "primary.com/top/insecure", true, false,
     [⟨"mirror.com/primary/insecure", false, "digest-only"⟩]⟩]

/-- The single IDMS rule of claim C5's scenario S5 (`primary.com/top →
[mirror.com/primary]`). -/
def s5Idms : List (List MirrorEntry) :=
  [[⟨"primary.com/top", ["mirror.com/primary"], ""⟩]]

/-- The registries the model (and phase ordering pinned by the carving
tests) produces for scenario S5: parent record, then the carved blocked
record, then the carved insecure record. -/
def s5Registries : List Registry :=
  [⟨"", "primary.com/top", false, false,
     [⟨"mirror.com/primary", false, "digest-only"⟩]⟩,
   ⟨"", "primary.com/top/blocked", false, true,
     [⟨"mirror.com/primary/blocked", false, "digest-only"⟩]⟩,
   ⟨"", "primary.com/top/insecure", true, false,
     [⟨"mirror.com/primary/insecure", false, "digest-only"⟩]⟩]

/-- `before l a b`: `a` occurs in `l` strictly before an occurrence of `b`. -/
def before : List String → String → String → Bool
  | [], _, _ => false
  | x :: xs, a, b => if x = a then decide (b ∈ xs) else if x = b then false else before xs a b

/-- The scope a record stands for: its prefix for wildcard records, its
location otherwise. -/
def scopeKey (r : Registry) : String := if r.pfx = "" then r.location else r.pfx

/-- Well-formedness of a topological graph: nodes are unique and every
edge endpoint is a node (maintained by `addNode`/`addEdge`/`addSequence`). -/
def graphWF (g : TopoGraph) : Prop :=
  g.nodes.Nodup ∧ ∀ e ∈ g.edges, e.1 ∈ g.nodes ∧ e.2 ∈ g.nodes

/-- Did a pipeline's merged set for source `s` carry `NeverContactSource`? -/
def pipelineNever (sets : List MergedMirrorSet) (s : String) : Bool :=
  sets.any (fun t => decide (t.source = s) && decide (t.msp = neverContact))

/-- The sources of a list of merged sets. -/
def setSources (sets : List MergedMirrorSet) : List String :=
  sets.map MergedMirrorSet.source

/-- The mirror locations and pull tags of a record, in order. -/
def mirrorShape (r : Registry) : List (String × String) :=
  r.mirrors.map (fun m => (m.location, m.pullFrom))

/-! ### Order lemmas for the lexicographic string order -/

theorem lexLt_irrefl : ∀ l : List Char, lexLt l l = false := by
  intro l
  induction l with
  | nil => rfl
  | cons a as ih => simp [lexLt, ih, lt_irrefl]

theorem lexLt_trans : ∀ a b c : List Char, lexLt a b = true → lexLt b c = true →
    lexLt a c = true := by
  intro a
  induction a with
  | nil =>
    intro b c hab hbc
    cases b with
    | nil => simp [lexLt] at hab
    | cons y ys =>
      cases c with
      | nil => simp [lexLt] at hbc
      | cons z zs => simp [lexLt]
  | cons x xs ih =>
    intro b c hab hbc
    cases b with
    | nil => simp [lexLt] at hab
    | cons y ys =>
      cases c with
      | nil => simp [lexLt] at hbc
      | cons z zs =>
        simp [lexLt] at hab hbc ⊢
        rcases hab with h1 | ⟨he1, h1⟩
        · rcases hbc with h2 | ⟨he2, h2⟩
          · exact Or.inl (lt_trans h1 h2)
          · exact Or.inl (he2 ▸ h1)
        · rcases hbc with h2 | ⟨he2, h2⟩
          · exact Or.inl (he1 ▸ h2)
          · exact Or.inr ⟨he1.trans he2, ih ys zs h1 h2⟩

theorem lexLt_trichotomy : ∀ a b : List Char, lexLt a b = true ∨ a = b ∨ lexLt b a = true := by
  intro a
  induction a with
  | nil =>
    intro b
    cases b with
    | nil => simp
    | cons y ys => simp [lexLt]
  | cons x xs ih =>
    intro b
    cases b with
    | nil => simp [lexLt]
    | cons y ys =>
      rcases lt_trichotomy x y with h | h | h
      · exact Or.inl (by simp [lexLt, h])
      · rcases ih ys with h2 | h2 | h2
        · exact Or.inl (by simp [lexLt, h, h2])
        · exact Or.inr (Or.inl (by rw [h, h2]))
        · exact Or.inr (Or.inr (by simp [lexLt, h.symm, h2]))
      · exact Or.inr (Or.inr (by simp [lexLt, h]))

theorem lexLt_asymm {a b : List Char} (h1 : lexLt a b = true) (h2 : lexLt b a = true) :
    False := by
  have := lexLt_trans a b a h1 h2
  rw [lexLt_irrefl] at this
  exact Bool.noConfusion this

theorem strLt_irrefl (a : String) : strLt a a = false := lexLt_irrefl a.data

theorem strLt_trans {a b c : String} (h1 : strLt a b = true) (h2 : strLt b c = true) :
    strLt a c = true := lexLt_trans a.data b.data c.data h1 h2

theorem strLt_asymm {a b : String} (h1 : strLt a b = true) (h2 : strLt b a = true) :
    False := lexLt_asymm h1 h2

theorem strLt_trichotomy (a b : String) : strLt a b = true ∨ a = b ∨ strLt b a = true := by
  rcases lexLt_trichotomy a.data b.data with h | h | h
  · exact Or.inl h
  · refine Or.inr (Or.inl ?_)
    cases a with
    | mk da => cases b with
      | mk db => exact congrArg String.mk (by simpa using h)
  · exact Or.inr (Or.inr h)

theorem strLe_refl (a : String) : strLe a a = true := by simp [strLe]

theorem strLe_total (a b : String) : strLe a b = true ∨ strLe b a = true := by
  rcases strLt_trichotomy a b with h | h | h
  · exact Or.inl (by simp [strLe, h])
  · exact Or.inl (by simp [strLe, h])
  · exact Or.inr (by simp [strLe, h])

theorem strLe_trans {a b c : String} (h1 : strLe a b = true) (h2 : strLe b c = true) :
    strLe a c = true := by
  simp [strLe] at h1 h2 ⊢
  rcases h1 with h1 | h1
  · rcases h2 with h2 | h2
    · exact Or.inl (strLt_trans h1 h2)
    · exact Or.inl (h2 ▸ h1)
  · rcases h2 with h2 | h2
    · exact Or.inl (h1 ▸ h2)
    · exact Or.inr (h1.trans h2)

theorem strLt_of_not_lt_of_ne {a b : String} (h : strLt a b = false) (hne : a ≠ b) :
    strLt b a = true := by
  rcases strLt_trichotomy a b with h1 | h1 | h1
  · rw [h1] at h; exact Bool.noConfusion h
  · exact absurd h1 hne
  · exact h1

theorem strLe_of_not_lt {a b : String} (h : strLt a b = false) : strLe b a = true := by
  by_cases he : b = a
  · simp [strLe, he]
  · simp [strLe, strLt_of_not_lt_of_ne h (fun hh => he hh.symm)]

/-! ### Minimum-selection lemmas -/

theorem foldl_min_mem (xs : List String) (a : String) :
    xs.foldl (fun a b => if strLt b a then b else a) a = a ∨
      xs.foldl (fun a b => if strLt b a then b else a) a ∈ xs := by
  induction xs generalizing a with
  | nil => exact Or.inl rfl
  | cons y ys ih =>
    simp only [List.foldl_cons]
    rcases ih (if strLt y a then y else a) with h | h
    · rw [h]
      by_cases hy : strLt y a = true
      · simp [hy]
      · simp [hy]
    · exact Or.inr (List.mem_cons_of_mem _ h)

theorem foldl_min_not_lt (xs : List String) : ∀ (a x : String), (x = a ∨ x ∈ xs) →
    strLt x (xs.foldl (fun a b => if strLt b a then b else a) a) = false := by
  induction xs with
  | nil =>
    intro a x hx
    simp at hx
    rw [hx]
    exact strLt_irrefl a
  | cons y ys ih =>
    intro a x hx
    have hx2 : x = a ∨ x = y ∨ x ∈ ys := by
      rcases hx with h | h
      · exact Or.inl h
      · exact Or.inr (List.mem_cons.mp h)
    simp only [List.foldl_cons]
    by_cases hy : strLt y a = true
    · simp only [hy, if_true]
      rcases hx2 with h | h | h
      · by_cases hres : strLt x (ys.foldl (fun a b => if strLt b a then b else a) y) = true
        · exfalso
          have hyr := ih y y (Or.inl rfl)
          rw [h] at hres
          have h2 := strLt_trans hy hres
          rw [hyr] at h2
          exact Bool.noConfusion h2
        · exact Bool.eq_false_iff.mpr (fun hh => hres hh)
      · rw [h]; exact ih y y (Or.inl rfl)
      · exact ih y x (Or.inr h)
    · simp only [hy, if_false]
      rcases hx2 with h | h | h
      · rw [h]; exact ih a a (Or.inl rfl)
      · by_cases hres : strLt x (ys.foldl (fun a b => if strLt b a then b else a) a) = true
        · exfalso
          have har := ih a a (Or.inl rfl)
          rcases strLt_trichotomy x a with h1 | h1 | h1
          · rw [h] at h1; rw [h1] at hy; exact hy rfl
          · rw [h1] at hres; rw [hres] at har; exact Bool.noConfusion har
          · have h2 := strLt_trans h1 hres
            rw [har] at h2
            exact Bool.noConfusion h2
        · exact Bool.eq_false_iff.mpr (fun hh => hres hh)
      · exact ih a x (Or.inr h)

theorem minStr_mem {l : List String} (h : l ≠ []) : minStr l ∈ l := by
  cases l with
  | nil => exact absurd rfl h
  | cons x xs =>
    rcases foldl_min_mem xs x with h2 | h2
    · rw [minStr, h2]; exact List.mem_cons_self _ _
    · exact List.mem_cons_of_mem _ (by rw [minStr]; exact h2)

theorem minStr_not_lt {l : List String} {x : String} (hx : x ∈ l) :
    strLt x (minStr l) = false := by
  cases l with
  | nil => simp at hx
  | cons y ys =>
    rw [minStr]
    rcases List.mem_cons.mp hx with h | h
    · exact foldl_min_not_lt ys y x (Or.inl h)
    · exact foldl_min_not_lt ys y x (Or.inr h)

theorem foldl_pick_mem (key : String → String) (xs : List String) (a : String) :
    xs.foldl (fun b x => if strLt (key x) (key b) then x else b) a = a ∨
      xs.foldl (fun b x => if strLt (key x) (key b) then x else b) a ∈ xs := by
  induction xs generalizing a with
  | nil => exact Or.inl rfl
  | cons y ys ih =>
    simp only [List.foldl_cons]
    rcases ih (if strLt (key y) (key a) then y else a) with h | h
    · rw [h]
      by_cases hy : strLt (key y) (key a) = true
      · simp [hy]
      · simp [hy]
    · exact Or.inr (List.mem_cons_of_mem _ h)

theorem foldl_pick_not_lt (key : String → String) (xs : List String) :
    ∀ (a x : String), (x = a ∨ x ∈ xs) →
    strLt (key x) (key (xs.foldl (fun b x => if strLt (key x) (key b) then x else b) a)) = false := by
  induction xs with
  | nil =>
    intro a x hx
    simp at hx
    rw [hx]
    exact strLt_irrefl _
  | cons y ys ih =>
    intro a x hx
    have hx2 : x = a ∨ x = y ∨ x ∈ ys := by
      rcases hx with h | h
      · exact Or.inl h
      · exact Or.inr (List.mem_cons.mp h)
    simp only [List.foldl_cons]
    by_cases hy : strLt (key y) (key a) = true
    · simp only [hy, if_true]
      rcases hx2 with h | h | h
      · by_cases hres :
            strLt (key x) (key (ys.foldl (fun b x => if strLt (key x) (key b) then x else b) y)) = true
        · exfalso
          have hyr := ih y y (Or.inl rfl)
          rw [h] at hres
          have h2 := strLt_trans hy hres
          rw [hyr] at h2
          exact Bool.noConfusion h2
        · exact Bool.eq_false_iff.mpr (fun hh => hres hh)
      · rw [h]; exact ih y y (Or.inl rfl)
      · exact ih y x (Or.inr h)
    · simp only [hy, if_false]
      rcases hx2 with h | h | h
      · rw [h]; exact ih a a (Or.inl rfl)
      · by_cases hres :
            strLt (key x) (key (ys.foldl (fun b x => if strLt (key x) (key b) then x else b) a)) = true
        · exfalso
          have har := ih a a (Or.inl rfl)
          rcases strLt_trichotomy (key x) (key a) with h1 | h1 | h1
          · rw [h] at h1; rw [h1] at hy; exact hy rfl
          · rw [h1] at hres; rw [hres] at har; exact Bool.noConfusion har
          · have h2 := strLt_trans h1 hres
            rw [har] at h2
            exact Bool.noConfusion h2
        · exact Bool.eq_false_iff.mpr (fun hh => hres hh)
      · exact ih a x (Or.inr h)

theorem pickBest_mem (key : String → String) {l : List String} (h : l ≠ []) :
    pickBest key l ∈ l := by
  cases l with
  | nil => exact absurd rfl h
  | cons x xs =>
    rcases foldl_pick_mem key xs x with h2 | h2
    · rw [pickBest, h2]; exact List.mem_cons_self _ _
    · exact List.mem_cons_of_mem _ (by rw [pickBest]; exact h2)

theorem pickBest_not_lt (key : String → String) {l : List String} {x : String} (hx : x ∈ l) :
    strLt (key x) (key (pickBest key l)) = false := by
  cases l with
  | nil => simp at hx
  | cons y ys =>
    rw [pickBest]
    rcases List.mem_cons.mp hx with h | h
    · exact foldl_pick_not_lt key ys y x (Or.inl h)
    · exact foldl_pick_not_lt key ys y x (Or.inr h)

/-! ### Reachability closure lemmas -/

theorem mem_stepR {g : TopoGraph} {s : List String} {x : String} :
    x ∈ stepR g s ↔ x ∈ s ∨
      (x ∈ g.nodes ∧ x ∉ s ∧ ∃ e ∈ g.edges, e.1 ∈ s ∧ e.2 = x) := by
  simp [stepR, List.mem_filter, List.any_eq_true]

theorem stepR_subset (g : TopoGraph) (s : List String) : s ⊆ stepR g s :=
  fun _ hx => List.mem_append_left _ hx

theorem stepR_mono {g : TopoGraph} {s t : List String} (h : s ⊆ t) :
    stepR g s ⊆ stepR g t := by
  intro x hx
  rcases mem_stepR.mp hx with hx | ⟨hn, _, e, he, h1, h2⟩
  · exact stepR_subset g t (h hx)
  · by_cases hxt : x ∈ t
    · exact stepR_subset g t hxt
    · exact mem_stepR.mpr (Or.inr ⟨hn, hxt, e, he, h h1, h2⟩)

theorem reachAux_subset (g : TopoGraph) : ∀ (n : Nat) (s : List String), s ⊆ reachAux g n s := by
  intro n
  induction n with
  | zero => intro s x hx; exact hx
  | succ m ih =>
    intro s x hx
    exact ih (stepR g s) (stepR_subset g s hx)

theorem reachAux_mono (g : TopoGraph) : ∀ (n : Nat) (s t : List String), s ⊆ t →
    reachAux g n s ⊆ reachAux g n t := by
  intro n
  induction n with
  | zero => intro s t h; exact h
  | succ m ih => intro s t h; exact ih _ _ (stepR_mono h)

theorem reachAux_closed (g : TopoGraph) {t : List String} (hc : stepR g t ⊆ t) :
    ∀ (n : Nat) (s : List String), s ⊆ t → reachAux g n s ⊆ t := by
  intro n
  induction n with
  | zero => intro s h; exact h
  | succ m ih =>
    intro s h
    exact ih (stepR g s) (fun x hx => hc (stepR_mono h hx))

theorem reachAux_succ_comm (g : TopoGraph) :
    ∀ (n : Nat) (s : List String), reachAux g (n + 1) s = stepR g (reachAux g n s) := by
  intro n
  induction n with
  | zero => intro s; rfl
  | succ m ih =>
    intro s
    show reachAux g (m + 1) (stepR g s) = _
    rw [ih (stepR g s)]
    rfl

theorem reachAux_add (g : TopoGraph) :
    ∀ (m n : Nat) (s : List String), reachAux g (m + n) s = reachAux g m (reachAux g n s) := by
  intro m n
  induction n generalizing m with
  | zero => intro s; rfl
  | succ k ih =>
    intro s
    show reachAux g (m + k + 1) s = _
    have : m + k + 1 = (m + k) + 1 := rfl
    rw [show m + k + 1 = (m + k) + 1 from rfl]
    show reachAux g (m + k) (stepR g s) = _
    rw [ih m (stepR g s)]
    rfl

theorem stepR_nodup {g : TopoGraph} (hg : g.nodes.Nodup) {s : List String} (hs : s.Nodup) :
    (stepR g s).Nodup := by
  refine List.Nodup.append hs (List.Nodup.filter _ hg) ?_
  intro a ha hb
  rcases List.mem_filter.mp hb with ⟨_, hp⟩
  simp at hp
  exact hp.1 ha

theorem reachAux_nodup {g : TopoGraph} (hg : g.nodes.Nodup) :
    ∀ (n : Nat) {s : List String}, s.Nodup → (reachAux g n s).Nodup := by
  intro n
  induction n with
  | zero => intro s hs; exact hs
  | succ m ih => intro s hs; exact ih (stepR_nodup hg hs)

theorem mem_reachAux_cases (g : TopoGraph) :
    ∀ (n : Nat) (s : List String) (x : String), x ∈ reachAux g n s → x ∈ s ∨ x ∈ g.nodes := by
  intro n
  induction n with
  | zero => intro s x hx; exact Or.inl hx
  | succ m ih =>
    intro s x hx
    rcases ih (stepR g s) x hx with h | h
    · rcases mem_stepR.mp h with h | ⟨h, _⟩
      · exact Or.inl h
      · exact Or.inr h
    · exact Or.inr h

theorem nodup_length_le {l m : List String} (hl : l.Nodup) (hsub : l ⊆ m) :
    l.length ≤ m.length := by
  have h1 : l.toFinset.card = l.length := List.toFinset_card_of_nodup hl
  have h2 : l.toFinset ⊆ m.toFinset := by
    intro x hx
    rw [List.mem_toFinset] at hx ⊢
    exact hsub hx
  have h3 := Finset.card_le_card h2
  have h4 : m.toFinset.card ≤ m.length := List.toFinset_card_le m
  omega

theorem length_lt_of_not_closed {g : TopoGraph} {s : List String}
    (h : ¬ stepR g s ⊆ s) : s.length + 1 ≤ (stepR g s).length := by
  have hne : g.nodes.filter (fun v =>
      decide (v ∉ s) && g.edges.any (fun e => decide (e.1 ∈ s) && decide (e.2 = v))) ≠ [] := by
    intro hemp
    apply h
    intro x hx
    rcases List.mem_append.mp hx with hx | hx
    · exact hx
    · rw [hemp] at hx; simp at hx
  have : 1 ≤ (g.nodes.filter (fun v =>
      decide (v ∉ s) && g.edges.any (fun e => decide (e.1 ∈ s) && decide (e.2 = v)))).length :=
    List.length_pos.mpr hne
  show s.length + 1 ≤ (s ++ _).length
  rw [List.length_append]
  omega

theorem reachList_closed {g : TopoGraph} (hnd : g.nodes.Nodup) (u : String) :
    stepR g (reachList g u) ⊆ reachList g u := by
  have key : ∃ i, i ≤ g.nodes.length ∧ stepR g (reachAux g i [u]) ⊆ reachAux g i [u] := by
    by_contra hcon
    push_neg at hcon
    have grow : ∀ i, i ≤ g.nodes.length + 1 → i + 1 ≤ (reachAux g i [u]).length := by
      intro i
      induction i with
      | zero => intro _; simp [reachAux]
      | succ j ihj =>
        intro hle
        have h1 : j + 1 ≤ (reachAux g j [u]).length := ihj (by omega)
        have hnc := hcon j (by omega)
        rw [reachAux_succ_comm]
        have h2 := length_lt_of_not_closed hnc
        omega
    have hbig := grow (g.nodes.length + 1) (le_refl _)
    have hnodup : (reachAux g (g.nodes.length + 1) [u]).Nodup :=
      reachAux_nodup hnd _ (List.nodup_singleton u)
    have hsub : reachAux g (g.nodes.length + 1) [u] ⊆ u :: g.nodes := by
      intro x hx
      rcases mem_reachAux_cases g _ _ x hx with h | h
      · simp at h; simp [h]
      · exact List.mem_cons_of_mem _ h
    have hlen := nodup_length_le hnodup hsub
    simp at hlen
    omega
  obtain ⟨i, hi, hclosed⟩ := key
  have hsplit : (g.nodes.length + 1 - i) + i = g.nodes.length + 1 := by omega
  have hdecomp : reachList g u = reachAux g (g.nodes.length + 1 - i) (reachAux g i [u]) :=
    calc reachList g u = reachAux g (g.nodes.length + 1) [u] := rfl
      _ = reachAux g ((g.nodes.length + 1 - i) + i) [u] := by rw [hsplit]
      _ = reachAux g (g.nodes.length + 1 - i) (reachAux g i [u]) := reachAux_add g _ i [u]
  have h1 : reachList g u ⊆ reachAux g i [u] := by
    rw [hdecomp]
    exact reachAux_closed g hclosed _ _ (fun x hx => hx)
  have h2 : reachAux g i [u] ⊆ reachList g u := by
    rw [hdecomp]
    exact reachAux_subset g _ _
  intro x hx
  exact h2 (hclosed (stepR_mono h1 hx))

theorem reach_refl (g : TopoGraph) (u : String) : u ∈ reachList g u :=
  reachAux_subset g _ [u] (List.mem_singleton_self u)

theorem reach_trans {g : TopoGraph} (hnd : g.nodes.Nodup) {u v w : String}
    (h1 : v ∈ reachList g u) (h2 : w ∈ reachList g v) : w ∈ reachList g u := by
  have hsub : reachList g v ⊆ reachList g u := by
    rw [reachList]
    refine reachAux_closed g (reachList_closed hnd u) _ _ ?_
    intro x hx
    simp at hx
    rw [hx]
    exact h1
  exact hsub h2

theorem reach_edge {g : TopoGraph} (hWF : graphWF g) {a b : String}
    (he : (a, b) ∈ g.edges) : b ∈ reachList g a := by
  have hb : b ∈ stepR g [a] := by
    by_cases hab : b = a
    · rw [hab]; exact stepR_subset g [a] (List.mem_singleton_self a)
    · refine mem_stepR.mpr (Or.inr ⟨(hWF.2 _ he).2, ?_, (a, b), he, ?_, rfl⟩)
      · simp [hab]
      · simp
  have : reachList g a = reachAux g g.nodes.length (stepR g [a]) := rfl
  rw [this]
  exact reachAux_subset g _ _ hb

/-! ### Strongly-connected-component relation and graph well-formedness -/

theorem sameSCC_refl (g : TopoGraph) (u : String) : sameSCC g u u = true := by
  simp [sameSCC, reachB, reach_refl]

theorem sameSCC_symm {g : TopoGraph} {u v : String} :
    sameSCC g u v = sameSCC g v u := by
  simp [sameSCC, Bool.and_comm]

theorem sameSCC_elim {g : TopoGraph} {u v : String} (h : sameSCC g u v = true) :
    v ∈ reachList g u ∧ u ∈ reachList g v := by
  simp [sameSCC, reachB] at h
  exact h

theorem sameSCC_intro {g : TopoGraph} {u v : String} (h1 : v ∈ reachList g u)
    (h2 : u ∈ reachList g v) : sameSCC g u v = true := by
  simp [sameSCC, reachB]
  exact ⟨h1, h2⟩

theorem sameSCC_trans {g : TopoGraph} (hnd : g.nodes.Nodup) {u v w : String}
    (h1 : sameSCC g u v = true) (h2 : sameSCC g v w = true) : sameSCC g u w = true := by
  obtain ⟨h1a, h1b⟩ := sameSCC_elim h1
  obtain ⟨h2a, h2b⟩ := sameSCC_elim h2
  exact sameSCC_intro (reach_trans hnd h1a h2a) (reach_trans hnd h2b h1b)

theorem exists_minimal (R : String → String → Prop) (hrefl : ∀ a, R a a)
    (htrans : ∀ a b c, R a b → R b c → R a c) :
    ∀ (l : List String), l ≠ [] → ∃ c ∈ l, ∀ a ∈ l, R a c → R c a := by
  intro l
  induction l with
  | nil => intro h; exact absurd rfl h
  | cons x xs ih =>
    intro _
    by_cases hxs : xs = []
    · refine ⟨x, List.mem_cons_self _ _, ?_⟩
      intro a ha _
      rw [hxs] at ha
      simp at ha
      rw [ha]
      exact hrefl x
    · obtain ⟨c, hc, hmin⟩ := ih hxs
      by_cases h1 : R x c
      · by_cases h2 : R c x
        · refine ⟨c, List.mem_cons_of_mem _ hc, ?_⟩
          intro a ha hac
          rcases List.mem_cons.mp ha with h | h
          · rw [h]; exact h2
          · exact hmin a h hac
        · refine ⟨x, List.mem_cons_self _ _, ?_⟩
          intro a ha hax
          rcases List.mem_cons.mp ha with h | h
          · rw [h]; exact hrefl x
          · have hac : R a c := htrans a x c hax h1
            have hca : R c a := hmin a h hac
            exact htrans x c a h1 hca
      · refine ⟨c, List.mem_cons_of_mem _ hc, ?_⟩
        intro a ha hac
        rcases List.mem_cons.mp ha with h | h
        · rw [h] at hac; exact absurd hac h1
        · exact hmin a h hac

theorem exists_ready {g : TopoGraph} (hWF : graphWF g) {remaining : List String}
    (hne : remaining ≠ []) :
    ∃ c ∈ remaining, isReadyV g remaining c = true := by
  obtain ⟨c, hc, hmin⟩ := exists_minimal (fun a b => b ∈ reachList g a)
    (fun a => reach_refl g a) (fun a b c h1 h2 => reach_trans hWF.1 h1 h2) remaining hne
  refine ⟨c, hc, ?_⟩
  rw [isReadyV, List.all_eq_true]
  intro e he
  by_cases hcase : (sameSCC g c e.2 && decide (e.1 ∈ remaining)) = true
  · rw [Bool.or_eq_true]
    refine Or.inr ?_
    rw [Bool.and_eq_true] at hcase
    obtain ⟨hscc, hmem⟩ := hcase
    rw [decide_eq_true_eq] at hmem
    have hr1 : e.2 ∈ reachList g e.1 := by
      have : (e.1, e.2) ∈ g.edges := he
      exact reach_edge hWF this
    have hr2 : c ∈ reachList g e.2 := (sameSCC_elim hscc).2
    have hr3 : c ∈ reachList g e.1 := reach_trans hWF.1 hr1 hr2
    have hr4 : e.1 ∈ reachList g c := hmin e.1 hmem hr3
    exact sameSCC_intro hr4 hr3
  · have hf : (sameSCC g c e.2 && decide (e.1 ∈ remaining)) = false :=
      Bool.eq_false_iff.mpr hcase
    simp [hf]

/-! ### Graph construction well-formedness -/

theorem addNode_nodes (g : TopoGraph) (n : String) :
    (addNode g n).nodes = g.nodes ∨ (addNode g n).nodes = g.nodes ++ [n] := by
  rw [addNode]
  by_cases h : n ∈ g.nodes
  · simp [h]
  · simp [h]

theorem addNode_edges (g : TopoGraph) (n : String) : (addNode g n).edges = g.edges := by
  rw [addNode]
  by_cases h : n ∈ g.nodes <;> simp [h]

theorem addNode_mem (g : TopoGraph) (n : String) : n ∈ (addNode g n).nodes := by
  rw [addNode]
  by_cases h : n ∈ g.nodes <;> simp [h]

theorem addNode_mem_of (g : TopoGraph) {x : String} (n : String) (hx : x ∈ g.nodes) :
    x ∈ (addNode g n).nodes := by
  rcases addNode_nodes g n with h | h <;> rw [h]
  · exact hx
  · exact List.mem_append_left _ hx

theorem addNode_WF {g : TopoGraph} (h : graphWF g) (n : String) : graphWF (addNode g n) := by
  rw [addNode]
  by_cases hn : n ∈ g.nodes
  · simp only [hn, if_true]
    exact h
  · simp only [hn, if_false]
    constructor
    · exact List.Nodup.append h.1 (List.nodup_singleton n)
        (by intro a ha hb; simp at hb; rw [hb] at ha; exact hn ha)
    · intro e he
      exact ⟨List.mem_append_left _ (h.2 e he).1, List.mem_append_left _ (h.2 e he).2⟩

theorem foldl_addNode_nodes_super (l : List String) :
    ∀ (g : TopoGraph) {x : String}, x ∈ g.nodes → x ∈ (l.foldl addNode g).nodes := by
  induction l with
  | nil => intro g x hx; exact hx
  | cons y ys ih => intro g x hx; exact ih _ (addNode_mem_of g y hx)

theorem foldl_addNode_mem (l : List String) :
    ∀ (g : TopoGraph) {x : String}, x ∈ l → x ∈ (l.foldl addNode g).nodes := by
  induction l with
  | nil => intro g x hx; simp at hx
  | cons y ys ih =>
    intro g x hx
    rcases List.mem_cons.mp hx with h | h
    · rw [h]
      exact foldl_addNode_nodes_super ys _ (addNode_mem g y)
    · exact ih _ h

theorem foldl_addNode_WF (l : List String) :
    ∀ {g : TopoGraph}, graphWF g → graphWF (l.foldl addNode g) := by
  induction l with
  | nil => intro g h; exact h
  | cons y ys ih => intro g h; exact ih (addNode_WF h y)

theorem foldl_addNode_edges (l : List String) :
    ∀ (g : TopoGraph), (l.foldl addNode g).edges = g.edges := by
  induction l with
  | nil => intro g; rfl
  | cons y ys ih =>
    intro g
    show (ys.foldl addNode (addNode g y)).edges = g.edges
    rw [ih (addNode g y), addNode_edges]

theorem addEdge_nodes (g : TopoGraph) (e : String × String) :
    (addEdge g e).nodes = g.nodes := by
  rw [addEdge]
  by_cases h : e ∈ g.edges <;> simp [h]

theorem addEdge_edges_mem (g : TopoGraph) (e : String × String) :
    e ∈ (addEdge g e).edges := by
  rw [addEdge]
  by_cases h : e ∈ g.edges <;> simp [h]

theorem addEdge_edges_super (g : TopoGraph) (e : String × String) {x : String × String}
    (hx : x ∈ g.edges) : x ∈ (addEdge g e).edges := by
  rw [addEdge]
  by_cases h : e ∈ g.edges
  · simp only [h, if_true]
    exact hx
  · simp only [h, if_false]
    exact List.mem_append_left _ hx

theorem addEdge_edges_cases (g : TopoGraph) (e : String × String) {x : String × String}
    (hx : x ∈ (addEdge g e).edges) : x ∈ g.edges ∨ x = e := by
  rw [addEdge] at hx
  by_cases h : e ∈ g.edges
  · simp [h] at hx; exact Or.inl hx
  · simp [h] at hx
    rcases hx with hh | hh
    · exact Or.inl hh
    · exact Or.inr hh

theorem addEdge_WF {g : TopoGraph} (h : graphWF g) {e : String × String}
    (h1 : e.1 ∈ g.nodes) (h2 : e.2 ∈ g.nodes) : graphWF (addEdge g e) := by
  constructor
  · rw [addEdge_nodes]; exact h.1
  · intro x hx
    rw [addEdge_nodes]
    rcases addEdge_edges_cases g e hx with hh | hh
    · exact h.2 x hh
    · rw [hh]; exact ⟨h1, h2⟩

theorem adjPairs_mem : ∀ (seq : List String) (a b : String), (a, b) ∈ adjPairs seq →
    a ∈ seq ∧ b ∈ seq := by
  intro seq
  induction seq with
  | nil => intro a b h; simp [adjPairs] at h
  | cons x xs ih =>
    intro a b h
    cases xs with
    | nil => simp [adjPairs] at h
    | cons y ys =>
      rw [adjPairs] at h
      rcases List.mem_cons.mp h with hh | hh
      · have h1 : a = x := congrArg Prod.fst hh
        have h2 : b = y := congrArg Prod.snd hh
        rw [h1, h2]
        exact ⟨List.mem_cons_self _ _, List.mem_cons_of_mem _ (List.mem_cons_self _ _)⟩
      · obtain ⟨ha, hb⟩ := ih a b hh
        exact ⟨List.mem_cons_of_mem _ ha, List.mem_cons_of_mem _ hb⟩

theorem foldl_addEdge_nodes (l : List (String × String)) :
    ∀ (g : TopoGraph), (l.foldl addEdge g).nodes = g.nodes := by
  induction l with
  | nil => intro g; rfl
  | cons y ys ih =>
    intro g
    show (ys.foldl addEdge (addEdge g y)).nodes = g.nodes
    rw [ih (addEdge g y), addEdge_nodes]

theorem foldl_addEdge_WF (l : List (String × String)) :
    ∀ {g : TopoGraph}, graphWF g → (∀ e ∈ l, e.1 ∈ g.nodes ∧ e.2 ∈ g.nodes) →
      graphWF (l.foldl addEdge g) := by
  induction l with
  | nil => intro g h _; exact h
  | cons y ys ih =>
    intro g h hall
    refine ih (addEdge_WF h (hall y (List.mem_cons_self _ _)).1
      (hall y (List.mem_cons_self _ _)).2) ?_
    intro e he
    rw [addEdge_nodes]
    exact hall e (List.mem_cons_of_mem _ he)

theorem foldl_addEdge_edges_super (l : List (String × String)) :
    ∀ (g : TopoGraph) {x : String × String}, x ∈ g.edges → x ∈ (l.foldl addEdge g).edges := by
  induction l with
  | nil => intro g x hx; exact hx
  | cons y ys ih => intro g x hx; exact ih _ (addEdge_edges_super g y hx)

theorem foldl_addEdge_mem (l : List (String × String)) :
    ∀ (g : TopoGraph) {x : String × String}, x ∈ l → x ∈ (l.foldl addEdge g).edges := by
  induction l with
  | nil => intro g x hx; simp at hx
  | cons y ys ih =>
    intro g x hx
    rcases List.mem_cons.mp hx with h | h
    · rw [h]
      exact foldl_addEdge_edges_super ys _ (addEdge_edges_mem g y)
    · exact ih _ h

theorem addSequence_WF {g : TopoGraph} (h : graphWF g) (seq : List String) :
    graphWF (addSequence g seq) := by
  rw [addSequence]
  refine foldl_addEdge_WF _ (foldl_addNode_WF seq h) ?_
  intro e he
  have := adjPairs_mem seq e.1 e.2 he
  exact ⟨foldl_addNode_mem seq g this.1, foldl_addNode_mem seq g this.2⟩

theorem addSequence_edges_super (g : TopoGraph) (seq : List String) {x : String × String}
    (hx : x ∈ g.edges) : x ∈ (addSequence g seq).edges := by
  rw [addSequence]
  refine foldl_addEdge_edges_super _ _ ?_
  rw [foldl_addNode_edges]
  exact hx

theorem addSequence_adj (g : TopoGraph) (seq : List String) {a b : String}
    (h : (a, b) ∈ adjPairs seq) : (a, b) ∈ (addSequence g seq).edges := by
  rw [addSequence]
  exact foldl_addEdge_mem _ _ h

theorem foldl_addSequence_WF (seqs : List (List String)) :
    ∀ {g : TopoGraph}, graphWF g → graphWF (seqs.foldl addSequence g) := by
  induction seqs with
  | nil => intro g h; exact h
  | cons s ss ih => intro g h; exact ih (addSequence_WF h s)

theorem foldl_addSequence_edges_super (seqs : List (List String)) :
    ∀ (g : TopoGraph) {x : String × String}, x ∈ g.edges →
      x ∈ (seqs.foldl addSequence g).edges := by
  induction seqs with
  | nil => intro g x hx; exact hx
  | cons t ts ih => intro g x hx; exact ih _ (addSequence_edges_super g t hx)

theorem foldl_addSequence_adj (seqs : List (List String)) :
    ∀ (g : TopoGraph) {s : List String} {a b : String}, s ∈ seqs → (a, b) ∈ adjPairs s →
      (a, b) ∈ (seqs.foldl addSequence g).edges := by
  induction seqs with
  | nil => intro g s a b hs _; simp at hs
  | cons t ts ih =>
    intro g s a b hs hadj
    rcases List.mem_cons.mp hs with h | h
    · show (a, b) ∈ (ts.foldl addSequence (addSequence g t)).edges
      refine foldl_addSequence_edges_super ts _ ?_
      rw [h] at hadj
      exact addSequence_adj g t hadj
    · exact ih _ h hadj

theorem emptyTopoGraph_WF : graphWF emptyTopoGraph := by
  constructor
  · exact List.nodup_nil
  · intro e he; simp [emptyTopoGraph] at he

theorem buildGraph_WF (seqs : List (List String)) : graphWF (buildGraph seqs) :=
  foldl_addSequence_WF seqs emptyTopoGraph_WF

theorem graphForSource_WF (entries : List MirrorEntry) (s : String) :
    graphWF (graphForSource entries s) :=
  foldl_addSequence_WF _ emptyTopoGraph_WF

/-! ### Relative-order predicate lemmas -/

theorem before_append_of_mem {l1 l2 : List String} {a b : String}
    (ha : a ∈ l1) (hb : b ∉ l1) (hb2 : b ∈ l2) : before (l1 ++ l2) a b = true := by
  induction l1 with
  | nil => simp at ha
  | cons x xs ih =>
    rw [List.cons_append, before]
    by_cases hxa : x = a
    · rw [if_pos hxa]
      simp
      exact Or.inr hb2
    · rw [if_neg hxa]
      have hxb : x ≠ b := by
        intro hh
        exact hb (hh ▸ List.mem_cons_self x xs)
      rw [if_neg hxb]
      refine ih ?_ ?_
      · rcases List.mem_cons.mp ha with h | h
        · exact absurd h.symm hxa
        · exact h
      · intro hh
        exact hb (List.mem_cons_of_mem _ hh)

theorem before_append_left {l1 l2 : List String} {a b : String}
    (h : before l1 a b = true) : before (l1 ++ l2) a b = true := by
  induction l1 with
  | nil => simp [before] at h
  | cons x xs ih =>
    rw [before] at h
    rw [List.cons_append, before]
    by_cases hxa : x = a
    · rw [if_pos hxa] at h ⊢
      rw [decide_eq_true_eq] at h
      simp
      exact Or.inl h
    · rw [if_neg hxa] at h ⊢
      by_cases hxb : x = b
      · rw [if_pos hxb] at h
        exact Bool.noConfusion h
      · rw [if_neg hxb] at h ⊢
        exact ih h

theorem before_append_right {l1 l2 : List String} {a b : String}
    (h : before l2 a b = true) (ha : a ∉ l1) (hb : b ∉ l1) :
    before (l1 ++ l2) a b = true := by
  induction l1 with
  | nil => exact h
  | cons x xs ih =>
    rw [List.cons_append, before]
    have hxa : x ≠ a := fun hh => ha (hh ▸ List.mem_cons_self x xs)
    have hxb : x ≠ b := fun hh => hb (hh ▸ List.mem_cons_self x xs)
    rw [if_neg hxa, if_neg hxb]
    exact ih (fun hh => ha (List.mem_cons_of_mem _ hh))
      (fun hh => hb (List.mem_cons_of_mem _ hh))

theorem before_filter {l : List String} {p : String → Bool} {a b : String}
    (h : before l a b = true) (hpa : p a = true) (hpb : p b = true) :
    before (l.filter p) a b = true := by
  induction l with
  | nil => simp [before] at h
  | cons x xs ih =>
    rw [before] at h
    by_cases hxa : x = a
    · rw [if_pos hxa] at h
      rw [decide_eq_true_eq] at h
      rw [List.filter_cons, hxa, hpa]
      simp only [if_true]
      rw [before, if_pos rfl, decide_eq_true_eq]
      exact List.mem_filter.mpr ⟨h, hpb⟩
    · rw [if_neg hxa] at h
      by_cases hxb : x = b
      · rw [if_pos hxb] at h
        exact Bool.noConfusion h
      · rw [if_neg hxb] at h
        rw [List.filter_cons]
        by_cases hpx : p x = true
        · rw [hpx]
          simp only [if_true]
          rw [before, if_neg hxa, if_neg hxb]
          exact ih h
        · rw [Bool.eq_false_iff.mpr hpx]
          simp only [Bool.false_eq_true, if_false]
          exact ih h

/-! ### Kahn-loop lemmas -/

theorem sameSCC_symm_t {g : TopoGraph} {u v : String} (h : sameSCC g u v = true) :
    sameSCC g v u = true := by
  rw [← sameSCC_symm]
  exact h

theorem kahnPick_mem {g : TopoGraph} {rem : List String} (h : rem ≠ []) :
    kahnPick g rem ∈ rem := by
  rw [kahnPick]
  by_cases hc : rem.filter (fun u => isReadyV g rem u) = []
  · rw [if_pos hc]
    exact pickBest_mem _ h
  · rw [if_neg hc]
    exact List.mem_of_mem_filter (pickBest_mem _ hc)

theorem kahnPick_ready {g : TopoGraph} (hWF : graphWF g) {rem : List String} (h : rem ≠ []) :
    isReadyV g rem (kahnPick g rem) = true := by
  obtain ⟨c, hc, hr⟩ := exists_ready hWF h
  have hcf : c ∈ rem.filter (fun u => isReadyV g rem u) := List.mem_filter.mpr ⟨hc, hr⟩
  have hne : rem.filter (fun u => isReadyV g rem u) ≠ [] := by
    intro hh
    rw [hh] at hcf
    simp at hcf
  rw [kahnPick, if_neg hne]
  exact (List.mem_filter.mp (pickBest_mem (sccKey g rem) hne)).2

theorem kahn_rest_len {g : TopoGraph} {rem : List String} (h : rem ≠ []) :
    (rem.filter (fun v => !(sameSCC g (kahnPick g rem) v))).length < rem.length := by
  rw [List.length_filter_lt_length_iff_exists]
  refine ⟨kahnPick g rem, kahnPick_mem h, ?_⟩
  rw [sameSCC_refl]
  simp

theorem kahnLoop_sub (g : TopoGraph) : ∀ (fuel : Nat) (rem : List String) (x : String),
    x ∈ kahnLoop g fuel rem → x ∈ rem := by
  intro fuel
  induction fuel with
  | zero => intro rem x hx; exact hx
  | succ f ih =>
    intro rem x hx
    by_cases hne : rem = []
    · rw [hne] at hx ⊢
      simp only [kahnLoop, if_pos rfl] at hx
      exact hx
    · simp only [kahnLoop] at hx
      rw [if_neg hne] at hx
      rcases List.mem_append.mp hx with h | h
      · exact List.mem_of_mem_filter h
      · exact List.mem_of_mem_filter (ih _ x h)

theorem kahnLoop_perm (g : TopoGraph) : ∀ (fuel : Nat) (rem : List String),
    rem.length ≤ fuel → (kahnLoop g fuel rem).Perm rem := by
  intro fuel
  induction fuel with
  | zero =>
    intro rem hlen
    have : rem = [] := List.eq_nil_of_length_eq_zero (Nat.le_zero.mp hlen)
    rw [this]
    exact List.Perm.refl _
  | succ f ih =>
    intro rem hlen
    by_cases hne : rem = []
    · rw [hne]
      simp only [kahnLoop, if_pos rfl]
      exact List.Perm.refl _
    · simp only [kahnLoop]
      rw [if_neg hne]
      have hrest := kahn_rest_len (g := g) hne
      have hperm := ih (rem.filter (fun v => !(sameSCC g (kahnPick g rem) v))) (by omega)
      refine List.Perm.trans (List.Perm.append_left _ hperm) ?_
      exact List.filter_append_perm _ rem

theorem kahnLoop_mem {g : TopoGraph} {fuel : Nat} {rem : List String} {x : String}
    (hlen : rem.length ≤ fuel) (hx : x ∈ rem) : x ∈ kahnLoop g fuel rem :=
  (kahnLoop_perm g fuel rem hlen).mem_iff.mpr hx

theorem kahnLoop_edge_before {g : TopoGraph} (hWF : graphWF g) :
    ∀ (fuel : Nat) (rem : List String), rem.length ≤ fuel →
    ∀ (a b : String), (a, b) ∈ g.edges → a ∈ rem → b ∈ rem → sameSCC g a b = false →
    before (kahnLoop g fuel rem) a b = true := by
  intro fuel
  induction fuel with
  | zero =>
    intro rem hlen a b _ ha _ _
    rw [List.eq_nil_of_length_eq_zero (Nat.le_zero.mp hlen)] at ha
    simp at ha
  | succ f ih =>
    intro rem hlen a b he ha hb hns
    have hne : rem ≠ [] := List.ne_nil_of_mem ha
    simp only [kahnLoop]
    rw [if_neg hne]
    have hrest := kahn_rest_len (g := g) hne
    have huready := kahnPick_ready hWF hne
    by_cases hub : sameSCC g (kahnPick g rem) b = true
    · exfalso
      have hua : sameSCC g (kahnPick g rem) a = true := by
        rw [isReadyV, List.all_eq_true] at huready
        have h2 := huready (a, b) he
        simp only [hub, ha] at h2
        simpa using h2
      have : sameSCC g a b = true :=
        sameSCC_trans hWF.1 (sameSCC_symm_t hua) hub
      rw [this] at hns
      exact Bool.noConfusion hns
    · have hubf : sameSCC g (kahnPick g rem) b = false := Bool.eq_false_iff.mpr hub
      have hbr : b ∈ rem.filter (fun v => !(sameSCC g (kahnPick g rem) v)) :=
        List.mem_filter.mpr ⟨hb, by rw [hubf]; rfl⟩
      by_cases hua : sameSCC g (kahnPick g rem) a = true
      · have hab : a ∈ rem.filter (fun v => sameSCC g (kahnPick g rem) v) :=
          List.mem_filter.mpr ⟨ha, hua⟩
        have hbnb : b ∉ rem.filter (fun v => sameSCC g (kahnPick g rem) v) := by
          intro hh
          exact hub (List.mem_filter.mp hh).2
        have hbrec : b ∈ kahnLoop g f (rem.filter (fun v => !(sameSCC g (kahnPick g rem) v))) :=
          kahnLoop_mem (by omega) hbr
        exact before_append_of_mem hab hbnb hbrec
      · have huaf : sameSCC g (kahnPick g rem) a = false := Bool.eq_false_iff.mpr hua
        have har : a ∈ rem.filter (fun v => !(sameSCC g (kahnPick g rem) v)) :=
          List.mem_filter.mpr ⟨ha, by rw [huaf]; rfl⟩
        have hrec := ih _ (by omega) a b he har hbr hns
        refine before_append_right hrec ?_ ?_
        · intro hh
          exact hua (List.mem_filter.mp hh).2
        · intro hh
          exact hub (List.mem_filter.mp hh).2

theorem kahnLoop_scc_before {g : TopoGraph} (hnd : g.nodes.Nodup) :
    ∀ (fuel : Nat) (rem : List String), rem.length ≤ fuel →
    ∀ (a b : String), sameSCC g a b = true → a ∈ rem → b ∈ rem → before rem a b = true →
    before (kahnLoop g fuel rem) a b = true := by
  intro fuel
  induction fuel with
  | zero =>
    intro rem hlen a b _ ha _ _
    rw [List.eq_nil_of_length_eq_zero (Nat.le_zero.mp hlen)] at ha
    simp at ha
  | succ f ih =>
    intro rem hlen a b hab ha hb hbef
    have hne : rem ≠ [] := List.ne_nil_of_mem ha
    simp only [kahnLoop]
    rw [if_neg hne]
    have hrest := kahn_rest_len (g := g) hne
    by_cases hua : sameSCC g (kahnPick g rem) a = true
    · have hub : sameSCC g (kahnPick g rem) b = true := sameSCC_trans hnd hua hab
      exact before_append_left (before_filter hbef hua hub)
    · have hub : sameSCC g (kahnPick g rem) b = false := by
        by_cases hh : sameSCC g (kahnPick g rem) b = true
        · exact absurd (sameSCC_trans hnd hh (sameSCC_symm_t hab)) hua
        · exact Bool.eq_false_iff.mpr hh
      have huaf : sameSCC g (kahnPick g rem) a = false := Bool.eq_false_iff.mpr hua
      have hbf : before (rem.filter (fun v => !(sameSCC g (kahnPick g rem) v))) a b = true :=
        before_filter hbef (by rw [huaf]; rfl) (by rw [hub]; rfl)
      refine before_append_right (ih _ (by omega) a b hab
        (List.mem_filter.mpr ⟨ha, by rw [huaf]; rfl⟩)
        (List.mem_filter.mpr ⟨hb, by rw [hub]; rfl⟩) hbf) ?_ ?_
      · intro hh
        exact hua (List.mem_filter.mp hh).2
      · intro hh
        rw [(List.mem_filter.mp hh).2] at hub
        exact Bool.noConfusion hub

/-! ### The edge-free case: the merged list is sorted lexicographically -/

theorem stepR_no_edges {g : TopoGraph} (hE : g.edges = []) (s : List String) :
    stepR g s = s := by
  rw [stepR, hE]
  simp

theorem reachAux_no_edges {g : TopoGraph} (hE : g.edges = []) :
    ∀ (n : Nat) (s : List String), reachAux g n s = s := by
  intro n
  induction n with
  | zero => intro s; rfl
  | succ m ih =>
    intro s
    show reachAux g m (stepR g s) = s
    rw [stepR_no_edges hE, ih]

theorem reachList_no_edges {g : TopoGraph} (hE : g.edges = []) (u : String) :
    reachList g u = [u] := reachAux_no_edges hE _ [u]

theorem sameSCC_no_edges {g : TopoGraph} (hE : g.edges = []) (u v : String) :
    sameSCC g u v = true ↔ v = u := by
  simp only [sameSCC, reachB, reachList_no_edges hE, List.mem_singleton,
    Bool.and_eq_true, decide_eq_true_eq]
  tauto

theorem isReadyV_no_edges {g : TopoGraph} (hE : g.edges = []) (rem : List String) (u : String) :
    isReadyV g rem u = true := by
  rw [isReadyV, hE]
  rfl

theorem filter_eq_nodup {rem : List String} (hnd : rem.Nodup) {u : String} (hu : u ∈ rem) :
    rem.filter (fun v => decide (v = u)) = [u] := by
  induction rem with
  | nil => simp at hu
  | cons x xs ih =>
    have hnd2 := List.nodup_cons.mp hnd
    by_cases hx : x = u
    · have hux : u ∉ xs := hx ▸ hnd2.1
      have hnil : xs.filter (fun v => decide (v = u)) = [] := by
        rw [List.filter_eq_nil_iff]
        intro a ha
        simp only [decide_eq_true_eq]
        intro hh
        rw [hh] at ha
        exact hux ha
      simp [List.filter_cons, hx, hnil]
    · have hu2 : u ∈ xs := by
        rcases List.mem_cons.mp hu with h | h
        · exact absurd h.symm hx
        · exact h
      simp [List.filter_cons, hx, ih hnd2.2 hu2]

theorem sccKey_no_edges {g : TopoGraph} (hE : g.edges = []) {rem : List String}
    (hnd : rem.Nodup) {u : String} (hu : u ∈ rem) : sccKey g rem u = u := by
  rw [sccKey]
  have hcongr : rem.filter (fun v => sameSCC g u v) = rem.filter (fun v => decide (v = u)) := by
    refine List.filter_congr ?_
    intro v _
    by_cases hv : v = u
    · rw [hv]
      simp [sameSCC_refl]
    · have : sameSCC g u v = false := by
        by_cases hh : sameSCC g u v = true
        · exact absurd ((sameSCC_no_edges hE u v).mp hh) hv
        · exact Bool.eq_false_iff.mpr hh
      rw [this]
      simp [hv]
  rw [hcongr, filter_eq_nodup hnd hu]
  rfl

theorem kahnPick_no_edges_min {g : TopoGraph} (hE : g.edges = []) {rem : List String}
    (hnd : rem.Nodup) (hne : rem ≠ []) {x : String} (hx : x ∈ rem) :
    strLt x (kahnPick g rem) = false := by
  have hfilter : rem.filter (fun u => isReadyV g rem u) = rem :=
    List.filter_eq_self.mpr (fun a _ => isReadyV_no_edges hE rem a)
  have hpool : kahnPick g rem = pickBest (sccKey g rem) rem := by
    rw [kahnPick, hfilter, if_neg hne]
  rw [hpool]
  have h1 := pickBest_not_lt (sccKey g rem) hx
  rw [sccKey_no_edges hE hnd hx] at h1
  rw [sccKey_no_edges hE hnd (pickBest_mem _ hne)] at h1
  exact h1

theorem kahnLoop_sorted_no_edges {g : TopoGraph} (hE : g.edges = []) :
    ∀ (fuel : Nat) (rem : List String), rem.length ≤ fuel → rem.Nodup →
    List.Sorted (fun a b => strLe a b = true) (kahnLoop g fuel rem) := by
  intro fuel
  induction fuel with
  | zero =>
    intro rem hlen _
    rw [List.eq_nil_of_length_eq_zero (Nat.le_zero.mp hlen)]
    exact List.sorted_nil
  | succ f ih =>
    intro rem hlen hnd
    by_cases hne : rem = []
    · rw [hne]
      simp only [kahnLoop, if_pos rfl]
      exact List.sorted_nil
    · simp only [kahnLoop]
      rw [if_neg hne]
      have hblock : rem.filter (fun v => sameSCC g (kahnPick g rem) v) = [kahnPick g rem] := by
        have hcongr : rem.filter (fun v => sameSCC g (kahnPick g rem) v) =
            rem.filter (fun v => decide (v = kahnPick g rem)) := by
          refine List.filter_congr ?_
          intro v _
          by_cases hv : v = kahnPick g rem
          · rw [hv]
            simp [sameSCC_refl]
          · have : sameSCC g (kahnPick g rem) v = false := by
              by_cases hh : sameSCC g (kahnPick g rem) v = true
              · exact absurd ((sameSCC_no_edges hE _ v).mp hh) hv
              · exact Bool.eq_false_iff.mpr hh
            rw [this]
            simp [hv]
        rw [hcongr, filter_eq_nodup hnd (kahnPick_mem hne)]
      rw [hblock]
      rw [List.singleton_append, List.sorted_cons]
      constructor
      · intro y hy
        have hyr := kahnLoop_sub g f _ y hy
        have hyrem : y ∈ rem := List.mem_of_mem_filter hyr
        exact strLe_of_not_lt (kahnPick_no_edges_min hE hnd hne hyrem)
      · have hrest := kahn_rest_len (g := g) hne
        exact ih _ (by omega) (List.Nodup.filter _ hnd)

/-! ### Result-level wrappers and the merger bridge -/

theorem topoResult_perm (g : TopoGraph) : (topoResult g).Perm g.nodes :=
  kahnLoop_perm g _ _ (le_refl _)

theorem topoResult_mem {g : TopoGraph} {x : String} (hx : x ∈ g.nodes) :
    x ∈ topoResult g :=
  kahnLoop_mem (le_refl _) hx

theorem topoResult_edge_before {g : TopoGraph} (hWF : graphWF g) {a b : String}
    (he : (a, b) ∈ g.edges) (hns : sameSCC g a b = false) :
    before (topoResult g) a b = true :=
  kahnLoop_edge_before hWF _ _ (le_refl _) a b he (hWF.2 _ he).1 (hWF.2 _ he).2 hns

theorem topoResult_scc_before {g : TopoGraph} (hnd : g.nodes.Nodup) {a b : String}
    (hscc : sameSCC g a b = true) (ha : a ∈ g.nodes) (hb : b ∈ g.nodes)
    (hbef : before g.nodes a b = true) : before (topoResult g) a b = true :=
  kahnLoop_scc_before hnd _ _ (le_refl _) a b hscc ha hb hbef

theorem topoResult_sorted_no_edges {g : TopoGraph} (hE : g.edges = [])
    (hnd : g.nodes.Nodup) :
    List.Sorted (fun a b => strLe a b = true) (topoResult g) :=
  kahnLoop_sorted_no_edges hE _ _ (le_refl _) hnd

theorem graphForSource_adj {entries : List MirrorEntry} {s : String} {e : MirrorEntry}
    (he : e ∈ entries) (hs : e.source = s) {a b : String}
    (hadj : (a, b) ∈ adjPairs e.mirrors) :
    (a, b) ∈ (graphForSource entries s).edges := by
  rw [graphForSource]
  refine foldl_addSequence_adj _ _ ?_ hadj
  refine List.mem_map.mpr ⟨e, ?_, rfl⟩
  refine List.mem_filter.mpr ⟨he, ?_⟩
  simp [hs]

theorem adjPairs_nil_of_short {seq : List String} (h : seq.length ≤ 1) :
    adjPairs seq = [] := by
  cases seq with
  | nil => rfl
  | cons x xs =>
    cases xs with
    | nil => rfl
    | cons y ys => simp at h

theorem addSequence_edges_short {g : TopoGraph} {seq : List String} (h : seq.length ≤ 1) :
    (addSequence g seq).edges = g.edges := by
  rw [addSequence, adjPairs_nil_of_short h]
  show (seq.foldl addNode g).edges = g.edges
  exact foldl_addNode_edges seq g

theorem foldl_addSequence_edges_short (seqs : List (List String)) :
    ∀ (g : TopoGraph), (∀ seq ∈ seqs, seq.length ≤ 1) →
      (seqs.foldl addSequence g).edges = g.edges := by
  induction seqs with
  | nil => intro g _; rfl
  | cons t ts ih =>
    intro g hall
    show (ts.foldl addSequence (addSequence g t)).edges = g.edges
    rw [ih _ (fun seq hs => hall seq (List.mem_cons_of_mem _ hs)),
      addSequence_edges_short (hall t (List.mem_cons_self _ _))]

theorem graphForSource_edges_nil {entries : List MirrorEntry} {s : String}
    (h : ∀ e ∈ entries, e.source = s → e.mirrors.length ≤ 1) :
    (graphForSource entries s).edges = [] := by
  rw [graphForSource]
  rw [foldl_addSequence_edges_short]
  · rfl
  · intro seq hseq
    rcases List.mem_map.mp hseq with ⟨e, he, hm⟩
    rcases List.mem_filter.mp he with ⟨he2, hp⟩
    rw [decide_eq_true_eq] at hp
    rw [← hm]
    exact h e he2 hp

/-! ### Merger lemmas -/

theorem addUnique_nodup {l : List String} (h : l.Nodup) (x : String) :
    (addUnique l x).Nodup := by
  rw [addUnique]
  by_cases hx : x ∈ l
  · rw [if_pos hx]; exact h
  · rw [if_neg hx]
    exact List.Nodup.append h (List.nodup_singleton x)
      (by intro a ha hb; simp at hb; rw [hb] at ha; exact hx ha)

theorem foldl_addUnique_nodup (xs : List String) :
    ∀ {acc : List String}, acc.Nodup → (xs.foldl addUnique acc).Nodup := by
  induction xs with
  | nil => intro acc h; exact h
  | cons y ys ih => intro acc h; exact ih (addUnique_nodup h y)

theorem uniqueSources_nodup (entries : List MirrorEntry) : (uniqueSources entries).Nodup :=
  foldl_addUnique_nodup _ List.nodup_nil

theorem sortStr_perm (l : List String) : (sortStr l).Perm l :=
  List.perm_insertionSort _ l

theorem sortStr_nodup {l : List String} (h : l.Nodup) : (sortStr l).Nodup :=
  ((sortStr_perm l).symm).nodup h

theorem sortStr_mem {l : List String} {x : String} : x ∈ sortStr l ↔ x ∈ l :=
  (sortStr_perm l).mem_iff

theorem sortStr_sorted (l : List String) :
    List.Sorted (fun a b => strLe a b = true) (sortStr l) :=
  @List.sorted_insertionSort String (fun a b => strLe a b = true) _
    ⟨fun a b => strLe_total a b⟩ ⟨fun _ _ _ h1 h2 => strLe_trans h1 h2⟩ l

theorem mergedMirrorSets_sources (entries : List MirrorEntry) :
    (mergedMirrorSets entries).map MergedMirrorSet.source =
      sortStr ((uniqueSources entries).filter (fun s => sourceHasRealMirror entries s)) := by
  rw [mergedMirrorSets, List.map_map]
  have : (MergedMirrorSet.source ∘ fun s =>
      (⟨s, mergedMirrorsOf entries s,
        if sourceNever entries s then neverContact else ""⟩ : MergedMirrorSet)) = id := rfl
  rw [this, List.map_id]

theorem mergedMirrorSets_sources_nodup (entries : List MirrorEntry) :
    ((mergedMirrorSets entries).map MergedMirrorSet.source).Nodup := by
  rw [mergedMirrorSets_sources]
  exact sortStr_nodup (List.Nodup.filter _ (uniqueSources_nodup entries))

theorem mergedMirrorSets_sources_sorted (entries : List MirrorEntry) :
    List.Sorted (fun a b => strLe a b = true)
      ((mergedMirrorSets entries).map MergedMirrorSet.source) := by
  rw [mergedMirrorSets_sources]
  exact sortStr_sorted _

theorem mergedMirrorSets_mem {entries : List MirrorEntry} {ms : MergedMirrorSet}
    (h : ms ∈ mergedMirrorSets entries) :
    ms.mirrors = mergedMirrorsOf entries ms.source ∧
      ms.msp = (if sourceNever entries ms.source then neverContact else "") ∧
      sourceHasRealMirror entries ms.source = true := by
  rw [mergedMirrorSets] at h
  rcases List.mem_map.mp h with ⟨s, hs, hms⟩
  have hsource : ms.source = s := by rw [← hms]
  rw [hsource]
  refine ⟨by rw [← hms], by rw [← hms], ?_⟩
  exact (List.mem_filter.mp (sortStr_mem.mp hs)).2

theorem sourceHasRealMirror_false {entries : List MirrorEntry} {S : String}
    (h : ∀ e ∈ entries, e.source = S → ∀ m ∈ e.mirrors, m = S) :
    sourceHasRealMirror entries S = false := by
  rw [sourceHasRealMirror]
  rw [List.any_eq_false]
  intro e he
  rw [Bool.and_eq_true, decide_eq_true_eq]
  intro ⟨h1, h2⟩
  rw [mirrorsContainsARealMirror, List.any_eq_true] at h2
  rcases h2 with ⟨m, hm, hne⟩
  rw [decide_eq_true_eq] at hne
  exact hne (h e he h1 m hm)

theorem mergedMirrorSets_not_mem {entries : List MirrorEntry} {S : String}
    (h : sourceHasRealMirror entries S = false) :
    S ∉ (mergedMirrorSets entries).map MergedMirrorSet.source := by
  rw [mergedMirrorSets_sources]
  intro hmem
  have := (List.mem_filter.mp (sortStr_mem.mp hmem)).2
  rw [h] at this
  exact Bool.noConfusion this

theorem pipelineNever_of_mem {sets : List MergedMirrorSet}
    (hnd : (sets.map MergedMirrorSet.source).Nodup) {d : MergedMirrorSet} (hd : d ∈ sets) :
    pipelineNever sets d.source = decide (d.msp = neverContact) := by
  by_cases hmsp : d.msp = neverContact
  · rw [pipelineNever]
    have : sets.any (fun t => decide (t.source = d.source) && decide (t.msp = neverContact)) = true := by
      rw [List.any_eq_true]
      exact ⟨d, hd, by simp [hmsp]⟩
    rw [this]
    simp [hmsp]
  · rw [pipelineNever]
    have : sets.any (fun t => decide (t.source = d.source) && decide (t.msp = neverContact)) = false := by
      rw [List.any_eq_false]
      intro t ht
      rw [Bool.and_eq_true, decide_eq_true_eq, decide_eq_true_eq]
      intro ⟨h1, h2⟩
      have : t = d := List.inj_on_of_nodup_map hnd ht hd h1
      rw [this] at h2
      exact hmsp h2
    rw [this]
    simp [hmsp]

theorem pipelineNever_not_mem {sets : List MergedMirrorSet} {s : String}
    (h : ∀ t ∈ sets, t.source ≠ s) : pipelineNever sets s = false := by
  rw [pipelineNever, List.any_eq_false]
  intro t ht
  rw [Bool.and_eq_true, decide_eq_true_eq, decide_eq_true_eq]
  intro ⟨h1, _⟩
  exact h t ht h1

theorem tagSetFor_some {tagSets : List MergedMirrorSet} {s : String} {t : MergedMirrorSet}
    (h : tagSetFor tagSets s = some t) : t ∈ tagSets ∧ t.source = s := by
  refine ⟨List.mem_of_find?_eq_some h, ?_⟩
  have := List.find?_some h
  rw [decide_eq_true_eq] at this
  exact this

theorem tagSetFor_none {tagSets : List MergedMirrorSet} {s : String}
    (h : tagSetFor tagSets s = none) : ∀ t ∈ tagSets, t.source ≠ s := by
  intro t ht
  have := List.find?_eq_none.mp h t ht
  rw [decide_eq_true_eq] at this
  exact this

theorem tagSetFor_isSome {tagSets : List MergedMirrorSet} {s : String}
    (h : s ∈ tagSets.map MergedMirrorSet.source) :
    ∃ t, tagSetFor tagSets s = some t := by
  rcases List.mem_map.mp h with ⟨t, ht, hs⟩
  rcases hfind : tagSetFor tagSets s with _ | t2
  · exfalso
    exact tagSetFor_none hfind t ht hs
  · exact ⟨t2, rfl⟩

/-! ### Scope predicate lemmas -/

theorem dropWhile_head_not {p : Char → Bool} : ∀ {l : List Char} {c : Char} {t : List Char},
    l.dropWhile p = c :: t → p c = false := by
  intro l
  induction l with
  | nil => intro c t h; simp [List.dropWhile] at h
  | cons x xs ih =>
    intro c t h
    rw [List.dropWhile] at h
    by_cases hp : p x = true
    · rw [hp] at h
      exact ih h
    · have hp2 : p x = false := Bool.eq_false_iff.mpr hp
      rw [hp2] at h
      simp at h
      rw [← h.1]
      exact hp2

theorem isPrefixOf_append : ∀ (l1 l2 : List Char), List.isPrefixOf l1 l2 = true →
    ∃ t, l2 = l1 ++ t := by
  intro l1
  induction l1 with
  | nil => intro l2 _; exact ⟨l2, rfl⟩
  | cons a as ih =>
    intro l2 h
    cases l2 with
    | nil => simp [List.isPrefixOf] at h
    | cons b bs =>
      rw [List.isPrefixOf, Bool.and_eq_true] at h
      obtain ⟨h1, h2⟩ := h
      have hab : a = b := by
        rw [beq_iff_eq] at h1
        exact h1
      obtain ⟨t, ht⟩ := ih bs h2
      exact ⟨t, by rw [hab, ht, List.cons_append]⟩

theorem not_mem_of_contains_false {l : List Char} {c : Char} (h : l.contains c = false) :
    c ∉ l := by
  intro hm
  rw [List.contains, List.elem_iff.mpr hm] at h
  exact Bool.noConfusion h

theorem wildcard_ne_empty {sc : String} (h : isWildcardScope sc = true) : sc ≠ "" := by
  intro heq
  rw [heq] at h
  rw [isWildcardScope] at h
  simp at h

theorem scope_nested_refl {s : String} (h : IsValidRegistriesConfScope s = true) :
    scopeIsNestedInsideScope s s = true := by
  rw [scopeIsNestedInsideScope, scopeNestedChars]
  by_cases hw : s.data.take 2 = ['*', '.']
  · rw [if_pos hw]
    rw [IsValidRegistriesConfScope, if_pos hw, validWildcardRest] at h
    have hdata : s.data = '*' :: '.' :: s.data.drop 2 := by
      have h2 := List.take_append_drop 2 s.data
      rw [hw] at h2
      exact h2.symm
    simp only [Bool.and_eq_true] at h
    obtain ⟨⟨⟨hs1, hs2⟩, _⟩, _⟩ := h
    have hrest : (s.data.drop 2).contains '/' = false := by
      rcases hb : (s.data.drop 2).contains '/' with _ | _
      · rfl
      · rw [hb] at hs1; simp at hs1
    have hrestc : (s.data.drop 2).contains ':' = false := by
      rcases hb : (s.data.drop 2).contains ':' with _ | _
      · rfl
      · rw [hb] at hs2; simp at hs2
    have hnm : '/' ∉ s.data.drop 2 := not_mem_of_contains_false hrest
    have hnmc : ':' ∉ s.data.drop 2 := not_mem_of_contains_false hrestc
    have hcont : s.data.contains '/' = false := by
      rw [hdata, List.contains_cons, List.contains_cons, hrest]
      decide
    rw [hcont]
    have hhost : hostPart s.data = s.data := by
      rw [hostPart]
      have h1 : s.data.takeWhile (· != '/') = s.data := by
        rw [List.takeWhile_eq_self_iff]
        intro c hc
        rw [hdata] at hc
        rcases List.mem_cons.mp hc with hh | hh
        · rw [hh]; decide
        · rcases List.mem_cons.mp hh with hh2 | hh2
          · rw [hh2]; decide
          · simp only [bne_iff_ne]
            intro hcc
            rw [hcc] at hh2
            exact hnm hh2
      rw [h1]
      rw [List.takeWhile_eq_self_iff]
      intro c hc
      rw [hdata] at hc
      rcases List.mem_cons.mp hc with hh | hh
      · rw [hh]; decide
      · rcases List.mem_cons.mp hh with hh2 | hh2
        · rw [hh2]; decide
        · simp only [bne_iff_ne]
          intro hcc
          rw [hcc] at hh2
          exact hnmc hh2
    have hsuf : List.isSuffixOf (s.data.drop 1) (hostPart s.data) = true := by
      rw [hhost]
      have hdrop1 : s.data.drop 1 = '.' :: s.data.drop 2 := by
        rw [hdata]
        rfl
      rw [hdrop1]
      refine List.isSuffixOf_iff_suffix.mpr ?_
      rw [hdata]
      exact ⟨['*'], rfl⟩
    rw [hsuf]
    rfl
  · rw [if_neg hw]
    have hne : ¬ (s.data.takeWhile (· != '/') ≠ s.data.takeWhile (· != '/')) := by simp
    rw [if_neg hne]
    by_cases hd : s.data.dropWhile (· != '/') = []
    · rw [if_pos hd]
    · rw [if_neg hd]
      rw [if_pos rfl]

theorem bne_false_eq {c d : Char} (h : (c != d) = false) : c = d := by
  by_contra hne
  have := bne_iff_ne.mpr hne
  rw [h] at this
  exact Bool.noConfusion this

theorem nested_concrete_suffix {sub sup : String}
    (h : scopeIsNestedInsideScope sub sup = true) (hw : isWildcardScope sup = false) :
    scopeSuffix sup sub = "" ∨ (scopeSuffix sup sub).data.take 1 = ['/'] := by
  rw [scopeIsNestedInsideScope, scopeNestedChars] at h
  have hw2 : ¬ sup.data.take 2 = ['*', '.'] := by
    intro hh
    rw [isWildcardScope, decide_eq_false_iff_not] at hw
    exact hw hh
  rw [if_neg hw2] at h
  by_cases hT : sub.data.takeWhile (· != '/') ≠ sup.data.takeWhile (· != '/')
  · rw [if_pos hT] at h
    exact Bool.noConfusion h
  · rw [if_neg hT] at h
    have hTeq : sub.data.takeWhile (· != '/') = sup.data.takeWhile (· != '/') :=
      not_not.mp hT
    have hsubsplit : sub.data = sub.data.takeWhile (· != '/') ++ sub.data.dropWhile (· != '/') :=
      (List.takeWhile_append_dropWhile _ _).symm
    have hsupsplit : sup.data = sup.data.takeWhile (· != '/') ++ sup.data.dropWhile (· != '/') :=
      (List.takeWhile_append_dropWhile _ _).symm
    have hlen : sup.data.length = (sup.data.takeWhile (· != '/')).length +
        (sup.data.dropWhile (· != '/')).length := by
      conv_lhs => rw [hsupsplit]
      rw [List.length_append]
    have hdropcalc : sub.data.drop sup.data.length =
        (sub.data.dropWhile (· != '/')).drop ((sup.data.dropWhile (· != '/')).length) := by
      calc sub.data.drop sup.data.length
          = (sub.data.takeWhile (· != '/') ++ sub.data.dropWhile (· != '/')).drop
              sup.data.length := by rw [← hsubsplit]
        _ = (sub.data.takeWhile (· != '/') ++ sub.data.dropWhile (· != '/')).drop
              ((sub.data.takeWhile (· != '/')).length +
                (sup.data.dropWhile (· != '/')).length) := by
              rw [hlen, hTeq]
        _ = (sub.data.dropWhile (· != '/')).drop ((sup.data.dropWhile (· != '/')).length) :=
              List.drop_append _
    by_cases hD1 : sup.data.dropWhile (· != '/') = []
    · have hcalc2 : sub.data.drop sup.data.length = sub.data.dropWhile (· != '/') := by
        rw [hdropcalc, hD1]
        rfl
      rcases hsd : sub.data.dropWhile (· != '/') with _ | ⟨c, t⟩
      · left
        rw [scopeSuffix]
        exact congrArg String.mk (by rw [hcalc2, hsd])
      · right
        rw [scopeSuffix]
        show (sub.data.drop sup.data.length).take 1 = ['/']
        have hc0 := dropWhile_head_not hsd
        have hc1 : (c != '/') = false := hc0
        have hc2 : c = '/' := bne_false_eq hc1
        rw [hcalc2, hsd, hc2]
        rfl
    · rw [if_neg hD1] at h
      by_cases hD2 : sup.data.dropWhile (· != '/') = sub.data.dropWhile (· != '/')
      · left
        rw [scopeSuffix]
        refine congrArg String.mk ?_
        rw [hdropcalc, hD2]
        exact List.drop_length _
      · rw [if_neg hD2] at h
        obtain ⟨t, ht⟩ := isPrefixOf_append _ _ h
        right
        rw [scopeSuffix]
        show (sub.data.drop sup.data.length).take 1 = ['/']
        rw [hdropcalc, ht]
        have : sup.data.dropWhile (· != '/') ++ ['/'] ++ t =
            sup.data.dropWhile (· != '/') ++ ('/' :: t) := by
          rw [List.append_assoc]
          rfl
        rw [this, List.drop_left]
        rfl

/-! ### Scope-processing lemmas -/

theorem setFlag_pfx (k : Bool) (r : Registry) : (setFlag k r).pfx = r.pfx := by
  cases k <;> rfl

theorem setFlag_location (k : Bool) (r : Registry) : (setFlag k r).location = r.location := by
  cases k <;> rfl

theorem setFlag_mirrors (k : Bool) (r : Registry) : (setFlag k r).mirrors = r.mirrors := by
  cases k <;> rfl

theorem updFlag_pfx (k : Bool) (sc : String) (r : Registry) :
    (if r.location = sc then setFlag k r else r).pfx = r.pfx := by
  by_cases h : r.location = sc
  · rw [if_pos h, setFlag_pfx]
  · rw [if_neg h]

theorem updFlag_location (k : Bool) (sc : String) (r : Registry) :
    (if r.location = sc then setFlag k r else r).location = r.location := by
  by_cases h : r.location = sc
  · rw [if_pos h, setFlag_location]
  · rw [if_neg h]

theorem updFlag_mirrors (k : Bool) (sc : String) (r : Registry) :
    (if r.location = sc then setFlag k r else r).mirrors = r.mirrors := by
  by_cases h : r.location = sc
  · rw [if_pos h, setFlag_mirrors]
  · rw [if_neg h]

theorem scopeKey_upd (k : Bool) (sc : String) (r : Registry) :
    scopeKey (if r.location = sc then setFlag k r else r) = scopeKey r := by
  rw [scopeKey, scopeKey, updFlag_pfx, updFlag_location]

theorem processScope_ok {k : Bool} {ins blk : List String} {recs : List Registry} {sc : String}
    {recs2 : List Registry} (h : processScope k ins blk recs sc = .ok recs2) :
    (recs.any (fun r => decide (r.location = sc)) = true ∧
      recs2 = recs.map (fun r => if r.location = sc then setFlag k r else r)) ∨
    (recs.any (fun r => decide (r.location = sc)) = false ∧
      ∃ nr, recs2 = recs ++ [nr] ∧
        nr.insecure = scopeMatchesAny ins sc ∧ nr.blocked = scopeMatchesAny blk sc ∧
        ((nr.pfx = "" ∧ nr.location = sc) ∨
         (isWildcardScope sc = true ∧ nr.pfx = sc ∧ nr.location = "" ∧ nr.mirrors = []))) := by
  rw [processScope] at h
  by_cases hany : recs.any (fun r => decide (r.location = sc)) = true
  · rw [if_pos hany] at h
    exact Or.inl ⟨hany, (Except.ok.inj h).symm⟩
  · have hanyf : recs.any (fun r => decide (r.location = sc)) = false :=
      Bool.eq_false_iff.mpr hany
    rw [if_neg hany] at h
    rcases hfind : recs.find? (fun r => scopeIsNestedInsideScope sc r.location) with _ | r
    · rw [hfind] at h
      refine Or.inr ⟨hanyf, ?_⟩
      by_cases hwc : isWildcardScope sc = true
      · refine ⟨⟨sc, "", scopeMatchesAny ins sc, scopeMatchesAny blk sc, []⟩, ?_, rfl, rfl, ?_⟩
        · have h2 := (Except.ok.inj h).symm
          rw [h2, if_pos hwc]
        · exact Or.inr ⟨hwc, rfl, rfl, rfl⟩
      · refine ⟨⟨"", sc, scopeMatchesAny ins sc, scopeMatchesAny blk sc, []⟩, ?_, rfl, rfl, ?_⟩
        · have h2 := (Except.ok.inj h).symm
          rw [h2, if_neg hwc]
        · exact Or.inl ⟨rfl, rfl⟩
    · rw [hfind] at h
      have h2 : (match mirrorsAdjustedForNestedScope r.location sc r.mirrors with
          | Except.error e => (Except.error e : Except String (List Registry))
          | Except.ok ms => Except.ok (recs ++
              [⟨"", sc, scopeMatchesAny ins sc, scopeMatchesAny blk sc, ms⟩])) =
          Except.ok recs2 := h
      rcases hadj : mirrorsAdjustedForNestedScope r.location sc r.mirrors with e | ms
      · rw [hadj] at h2
        exact Except.noConfusion h2
      · rw [hadj] at h2
        exact Or.inr ⟨hanyf, ⟨"", sc, scopeMatchesAny ins sc, scopeMatchesAny blk sc, ms⟩,
          (Except.ok.inj h2).symm, rfl, rfl, Or.inl ⟨rfl, rfl⟩⟩

theorem scopeKey_new {sc : String} {nr : Registry}
    (hshape : (nr.pfx = "" ∧ nr.location = sc) ∨
      (isWildcardScope sc = true ∧ nr.pfx = sc ∧ nr.location = "" ∧ nr.mirrors = [])) :
    scopeKey nr = sc := by
  rcases hshape with ⟨h1, h2⟩ | ⟨hwc, h1, h2, _⟩
  · rw [scopeKey, if_pos h1]
    exact h2
  · rw [scopeKey, h1, if_neg (wildcard_ne_empty hwc)]

theorem applyScopes_map_loc {k : Bool} {ins blk : List String} :
    ∀ (scopes : List String) (recs out : List Registry),
    applyScopes k ins blk recs scopes = .ok out →
    ∃ app : List String, out.map Registry.location = recs.map Registry.location ++ app := by
  intro scopes
  induction scopes with
  | nil =>
    intro recs out h
    rw [applyScopes] at h
    rw [← Except.ok.inj h]
    exact ⟨[], (List.append_nil _).symm⟩
  | cons sc rest ih =>
    intro recs out h
    rw [applyScopes] at h
    rcases hps : processScope k ins blk recs sc with e | recs2
    · rw [hps] at h
      exact Except.noConfusion h
    · rw [hps] at h
      obtain ⟨app, happ⟩ := ih recs2 out h
      rcases processScope_ok hps with ⟨_, hrec⟩ | ⟨_, nr, hrec, _, _, _⟩
      · refine ⟨app, ?_⟩
        rw [happ, hrec, List.map_map]
        have : (Registry.location ∘ fun r => if r.location = sc then setFlag k r else r) =
            Registry.location := by
          funext r
          exact updFlag_location k sc r
        rw [this]
      · refine ⟨nr.location :: app, ?_⟩
        rw [happ, hrec, List.map_append]
        rw [List.append_assoc]
        rfl

theorem applyScopes_keys {k : Bool} {ins blk : List String} :
    ∀ (scopes : List String) (recs out : List Registry),
    applyScopes k ins blk recs scopes = .ok out →
    ∃ app : List String, out.map scopeKey = recs.map scopeKey ++ app ∧ app.Sublist scopes := by
  intro scopes
  induction scopes with
  | nil =>
    intro recs out h
    rw [applyScopes] at h
    rw [← Except.ok.inj h]
    exact ⟨[], (List.append_nil _).symm, List.nil_sublist _⟩
  | cons sc rest ih =>
    intro recs out h
    rw [applyScopes] at h
    rcases hps : processScope k ins blk recs sc with e | recs2
    · rw [hps] at h
      exact Except.noConfusion h
    · rw [hps] at h
      obtain ⟨app, happ, hsub⟩ := ih recs2 out h
      rcases processScope_ok hps with ⟨_, hrec⟩ | ⟨_, nr, hrec, _, _, hshape⟩
      · refine ⟨app, ?_, List.Sublist.cons sc hsub⟩
        rw [happ, hrec, List.map_map]
        have : (scopeKey ∘ fun r => if r.location = sc then setFlag k r else r) =
            scopeKey := by
          funext r
          exact scopeKey_upd k sc r
        rw [this]
      · refine ⟨sc :: app, ?_, List.Sublist.cons₂ sc hsub⟩
        rw [happ, hrec, List.map_append]
        rw [List.append_assoc]
        rw [List.map_cons, List.map_nil, scopeKey_new hshape]
        rfl

theorem applyScopes_loc_pred {k : Bool} {ins blk : List String} (Q : String → Prop) :
    ∀ (scopes : List String) (recs out : List Registry),
    applyScopes k ins blk recs scopes = .ok out →
    (∀ r ∈ recs, Q r.location) → (∀ sc ∈ scopes, Q sc) → Q "" →
    ∀ r ∈ out, Q r.location := by
  intro scopes
  induction scopes with
  | nil =>
    intro recs out h hrecs _ _
    rw [applyScopes] at h
    rw [← Except.ok.inj h]
    exact hrecs
  | cons sc rest ih =>
    intro recs out h hrecs hscopes hempty
    rw [applyScopes] at h
    rcases hps : processScope k ins blk recs sc with e | recs2
    · rw [hps] at h
      exact Except.noConfusion h
    · rw [hps] at h
      refine ih recs2 out h ?_ (fun t ht => hscopes t (List.mem_cons_of_mem _ ht)) hempty
      rcases processScope_ok hps with ⟨_, hrec⟩ | ⟨_, nr, hrec, _, _, hshape⟩
      · intro r hr
        rw [hrec] at hr
        rcases List.mem_map.mp hr with ⟨r0, hr0, hr0eq⟩
        rw [← hr0eq, updFlag_location]
        exact hrecs r0 hr0
      · intro r hr
        rw [hrec] at hr
        rcases List.mem_append.mp hr with hh | hh
        · exact hrecs r hh
        · simp at hh
          rw [hh]
          rcases hshape with ⟨_, h2⟩ | ⟨_, _, h2, _⟩
          · rw [h2]
            exact hscopes sc (List.mem_cons_self _ _)
          · rw [h2]
            exact hempty

/-! ### Unfolding the projector -/

theorem EditRegistriesConfig_ok {cfg : V2RegistriesConf} {ins blk : List String}
    {icsp idms itms : List (List MirrorEntry)} {out : V2RegistriesConf}
    (h : EditRegistriesConfig cfg ins blk icsp idms itms = .ok out) :
    (∀ sc ∈ ins ++ blk, IsValidRegistriesConfScope sc = true) ∧
    ∃ recs1, applyScopes true ins blk
        (baseRecords ins blk (mergedDigestMirrorSets idms icsp) (mergedTagMirrorSets itms))
        blk = .ok recs1 ∧
      ∃ recs2, applyScopes false ins blk recs1 ins = .ok recs2 ∧
        out.unqualifiedSearchRegistries = cfg.unqualifiedSearchRegistries ∧
        out.registries = cfg.registries ++ recs2 := by
  rw [EditRegistriesConfig] at h
  by_cases hval : (ins ++ blk).all IsValidRegistriesConfScope = true
  · have hcond : (!(ins ++ blk).all IsValidRegistriesConfScope) = false := by
      rw [hval]
      rfl
    rw [hcond] at h
    have h1 : (match applyScopes true ins blk
        (baseRecords ins blk (mergedDigestMirrorSets idms icsp) (mergedTagMirrorSets itms))
        blk with
      | Except.error e => (Except.error e : Except String V2RegistriesConf)
      | Except.ok recs1 =>
        match applyScopes false ins blk recs1 ins with
        | Except.error e => Except.error e
        | Except.ok recs2 => Except.ok { cfg with registries := cfg.registries ++ recs2 }) =
        Except.ok out := h
    refine ⟨fun sc hsc => List.all_eq_true.mp hval sc hsc, ?_⟩
    rcases happ1 : applyScopes true ins blk
        (baseRecords ins blk (mergedDigestMirrorSets idms icsp) (mergedTagMirrorSets itms))
        blk with e | recs1
    · rw [happ1] at h1
      exact Except.noConfusion h1
    · rw [happ1] at h1
      have h2 : (match applyScopes false ins blk recs1 ins with
          | Except.error e => (Except.error e : Except String V2RegistriesConf)
          | Except.ok recs2 =>
            Except.ok { cfg with registries := cfg.registries ++ recs2 }) =
          Except.ok out := h1
      refine ⟨recs1, rfl, ?_⟩
      rcases happ2 : applyScopes false ins blk recs1 ins with e | recs2
      · rw [happ2] at h2
        exact Except.noConfusion h2
      · rw [happ2] at h2
        refine ⟨recs2, rfl, ?_, ?_⟩
        · rw [← Except.ok.inj h2]
        · rw [← Except.ok.inj h2]
  · have hcond : (!(ins ++ blk).all IsValidRegistriesConfScope) = true := by
      rw [Bool.eq_false_iff.mpr hval]
      rfl
    rw [hcond] at h
    exact Except.noConfusion h

/-! ### Base-record lemmas -/

theorem baseRecordForDigest_fields (ins blk : List String) (tagSets : List MergedMirrorSet)
    (d : MergedMirrorSet) :
    (baseRecordForDigest ins blk tagSets d).pfx = "" ∧
    (baseRecordForDigest ins blk tagSets d).location = d.source := ⟨rfl, rfl⟩

theorem baseRecords_map_loc (ins blk : List String) (digestSets tagSets : List MergedMirrorSet) :
    (baseRecords ins blk digestSets tagSets).map Registry.location =
      digestSets.map MergedMirrorSet.source ++
        (tagSets.filter (fun t => digestSets.all (fun d => decide (d.source ≠ t.source)))).map
          MergedMirrorSet.source := by
  rw [baseRecords, List.map_append, List.map_map, List.map_map]
  have h1 : (Registry.location ∘ baseRecordForDigest ins blk tagSets) =
      MergedMirrorSet.source := rfl
  have h2 : (Registry.location ∘ baseRecordForTag ins blk) = MergedMirrorSet.source := rfl
  rw [h1, h2]

theorem baseRecords_map_key (ins blk : List String) (digestSets tagSets : List MergedMirrorSet) :
    (baseRecords ins blk digestSets tagSets).map scopeKey =
      (baseRecords ins blk digestSets tagSets).map Registry.location := by
  rw [baseRecords, List.map_append, List.map_append, List.map_map, List.map_map,
    List.map_map, List.map_map]
  have h1 : (scopeKey ∘ baseRecordForDigest ins blk tagSets) =
      (Registry.location ∘ baseRecordForDigest ins blk tagSets) := rfl
  have h2 : (scopeKey ∘ baseRecordForTag ins blk) =
      (Registry.location ∘ baseRecordForTag ins blk) := rfl
  rw [h1, h2]

theorem baseRecords_loc_sources (ins blk : List String)
    (digestSets tagSets : List MergedMirrorSet) :
    ∀ s ∈ digestSets.map MergedMirrorSet.source ++ tagSets.map MergedMirrorSet.source,
      s ∈ (baseRecords ins blk digestSets tagSets).map Registry.location := by
  intro s hs
  rw [baseRecords_map_loc]
  rcases List.mem_append.mp hs with hd | ht
  · exact List.mem_append_left _ hd
  · by_cases hd2 : s ∈ digestSets.map MergedMirrorSet.source
    · exact List.mem_append_left _ hd2
    · refine List.mem_append_right _ ?_
      rcases List.mem_map.mp ht with ⟨t, htm, hts⟩
      refine List.mem_map.mpr ⟨t, ?_, hts⟩
      refine List.mem_filter.mpr ⟨htm, ?_⟩
      rw [List.all_eq_true]
      intro d hdm
      rw [decide_eq_true_eq]
      intro hcon
      exact hd2 (List.mem_map.mpr ⟨d, hdm, by rw [hcon, hts]⟩)

/-! ### Flag-bit invariant through scope processing -/

theorem applyScopes_bits {k : Bool} {ins blk : List String}
    (digestSets tagSets : List MergedMirrorSet) :
    ∀ (scopes : List String) (recs out : List Registry),
    applyScopes k ins blk recs scopes = .ok out →
    (∀ sc ∈ scopes, IsValidRegistriesConfScope sc = true) →
    (∀ sc ∈ scopes, (k = true → sc ∈ blk) ∧ (k = false → sc ∈ ins)) →
    (∀ r ∈ recs, r.pfx = "" →
      r.location ∈ digestSets.map MergedMirrorSet.source ++
        tagSets.map MergedMirrorSet.source →
      r.insecure = scopeMatchesAny ins r.location ∧
      r.blocked = (scopeMatchesAny blk r.location || pipelineNever digestSets r.location ||
        pipelineNever tagSets r.location)) →
    (∀ s ∈ digestSets.map MergedMirrorSet.source ++ tagSets.map MergedMirrorSet.source,
      s ∈ recs.map Registry.location) →
    ((∀ r ∈ out, r.pfx = "" →
      r.location ∈ digestSets.map MergedMirrorSet.source ++
        tagSets.map MergedMirrorSet.source →
      r.insecure = scopeMatchesAny ins r.location ∧
      r.blocked = (scopeMatchesAny blk r.location || pipelineNever digestSets r.location ||
        pipelineNever tagSets r.location)) ∧
    (∀ s ∈ digestSets.map MergedMirrorSet.source ++ tagSets.map MergedMirrorSet.source,
      s ∈ out.map Registry.location)) := by
  intro scopes
  induction scopes with
  | nil =>
    intro recs out h hv hk hbits hloc
    rw [applyScopes] at h
    rw [← Except.ok.inj h]
    exact ⟨hbits, hloc⟩
  | cons sc rest ih =>
    intro recs out h hv hk hbits hloc
    rw [applyScopes] at h
    rcases hps : processScope k ins blk recs sc with e | recs2
    · rw [hps] at h
      exact Except.noConfusion h
    · rw [hps] at h
      have hvrest : ∀ t ∈ rest, IsValidRegistriesConfScope t = true :=
        fun t ht => hv t (List.mem_cons_of_mem _ ht)
      have hkrest : ∀ t ∈ rest, (k = true → t ∈ blk) ∧ (k = false → t ∈ ins) :=
        fun t ht => hk t (List.mem_cons_of_mem _ ht)
      have hscv : IsValidRegistriesConfScope sc = true := hv sc (List.mem_cons_self _ _)
      have hsck := hk sc (List.mem_cons_self _ _)
      rcases processScope_ok hps with ⟨_, hrec⟩ | ⟨hanyf, nr, hrec, _, _, hshape⟩
      · -- update in place
        refine ih recs2 out h hvrest hkrest ?_ ?_
        · intro r2 hr2 hpfx hlocm
          rw [hrec] at hr2
          rcases List.mem_map.mp hr2 with ⟨r, hr, hreq⟩
          by_cases hloceq : r.location = sc
          · have hr2eq : r2 = setFlag k r := by
              rw [← hreq, if_pos hloceq]
            have hpfx0 : r.pfx = "" := by
              rw [hr2eq, setFlag_pfx] at hpfx
              exact hpfx
            have hloc0 : r.location ∈ digestSets.map MergedMirrorSet.source ++
                tagSets.map MergedMirrorSet.source := by
              rw [hr2eq, setFlag_location] at hlocm
              exact hlocm
            obtain ⟨hbi, hbb⟩ := hbits r hr hpfx0 hloc0
            have hnest : scopeIsNestedInsideScope r.location r.location = true := by
              have := scope_nested_refl (s := r.location)
              rw [hloceq] at *
              exact scope_nested_refl hscv
            cases k with
            | true =>
              have hblk : sc ∈ blk := hsck.1 rfl
              have hmatch : scopeMatchesAny blk r.location = true := by
                rw [scopeMatchesAny, List.any_eq_true]
                exact ⟨sc, hblk, by rw [hloceq]; exact scope_nested_refl hscv⟩
              constructor
              · rw [hr2eq, setFlag_location]
                have : (setFlag true r).insecure = r.insecure := rfl
                rw [this]
                exact hbi
              · rw [hr2eq, setFlag_location]
                have : (setFlag true r).blocked = true := rfl
                rw [this, hmatch]
                rfl
            | false =>
              have hins : sc ∈ ins := hsck.2 rfl
              have hmatch : scopeMatchesAny ins r.location = true := by
                rw [scopeMatchesAny, List.any_eq_true]
                exact ⟨sc, hins, by rw [hloceq]; exact scope_nested_refl hscv⟩
              constructor
              · rw [hr2eq, setFlag_location]
                have : (setFlag false r).insecure = true := rfl
                rw [this, hmatch]
              · rw [hr2eq, setFlag_location]
                have : (setFlag false r).blocked = r.blocked := rfl
                rw [this]
                exact hbb
          · have hr2eq : r2 = r := by
              rw [← hreq, if_neg hloceq]
            rw [hr2eq] at hpfx hlocm ⊢
            exact hbits r hr hpfx hlocm
        · intro s hs
          rw [hrec, List.map_map]
          have : (Registry.location ∘ fun r => if r.location = sc then setFlag k r else r) =
              Registry.location := by
            funext r
            exact updFlag_location k sc r
          rw [this]
          exact hloc s hs
      · -- append a fresh record
        refine ih recs2 out h hvrest hkrest ?_ ?_
        · intro r2 hr2 hpfx hlocm
          rw [hrec] at hr2
          rcases List.mem_append.mp hr2 with hh | hh
          · exact hbits r2 hh hpfx hlocm
          · simp at hh
            rw [hh] at hpfx hlocm
            rcases hshape with ⟨_, h2⟩ | ⟨hwc, h1, _, _⟩
            · exfalso
              rw [h2] at hlocm
              have hscrecs := hloc sc hlocm
              rcases List.mem_map.mp hscrecs with ⟨r0, hr0, hr0loc⟩
              have : recs.any (fun r => decide (r.location = sc)) = true := by
                rw [List.any_eq_true]
                exact ⟨r0, hr0, by rw [decide_eq_true_eq]; exact hr0loc⟩
              rw [this] at hanyf
              exact Bool.noConfusion hanyf
            · exfalso
              rw [h1] at hpfx
              exact wildcard_ne_empty hwc hpfx
        · intro s hs
          rw [hrec, List.map_append]
          exact List.mem_append_left _ (hloc s hs)

theorem baseRecords_bits {ins blk : List String} {digestSets tagSets : List MergedMirrorSet}
    (hnd : (digestSets.map MergedMirrorSet.source).Nodup)
    (hnt : (tagSets.map MergedMirrorSet.source).Nodup) :
    ∀ r ∈ baseRecords ins blk digestSets tagSets,
      r.insecure = scopeMatchesAny ins r.location ∧
      r.blocked = (scopeMatchesAny blk r.location || pipelineNever digestSets r.location ||
        pipelineNever tagSets r.location) := by
  intro r hr
  rw [baseRecords] at hr
  rcases List.mem_append.mp hr with hh | hh
  · rcases List.mem_map.mp hh with ⟨d, hd, hdeq⟩
    have hloc : r.location = d.source := by rw [← hdeq]; rfl
    have hins : r.insecure = scopeMatchesAny ins d.source := by rw [← hdeq]; rfl
    have hpn1 : pipelineNever digestSets d.source = decide (d.msp = neverContact) :=
      pipelineNever_of_mem hnd hd
    have hpn2 : (match tagSetFor tagSets d.source with
        | some t => decide (t.msp = neverContact)
        | none => false) = pipelineNever tagSets d.source := by
      rcases hts : tagSetFor tagSets d.source with _ | t
      · exact (pipelineNever_not_mem (tagSetFor_none hts)).symm
      · obtain ⟨htm, htsrc⟩ := tagSetFor_some hts
        rw [← htsrc]
        exact (pipelineNever_of_mem hnt htm).symm
    constructor
    · rw [hloc, hins]
    · rw [hloc]
      have hbl : r.blocked = (scopeMatchesAny blk d.source || decide (d.msp = neverContact) ||
          (match tagSetFor tagSets d.source with
            | some t => decide (t.msp = neverContact)
            | none => false)) := by
        rw [← hdeq]
        rfl
      rw [hbl, hpn1, hpn2]
  · rcases List.mem_map.mp hh with ⟨t, ht, hteq⟩
    have htm : t ∈ tagSets := List.mem_of_mem_filter ht
    have hfilt := (List.mem_filter.mp ht).2
    have hloc : r.location = t.source := by rw [← hteq]; rfl
    have hins : r.insecure = scopeMatchesAny ins t.source := by rw [← hteq]; rfl
    have hpn1 : pipelineNever digestSets t.source = false := by
      refine pipelineNever_not_mem ?_
      intro d hd
      have := List.all_eq_true.mp hfilt d hd
      rw [decide_eq_true_eq] at this
      exact this
    have hpn2 : pipelineNever tagSets t.source = decide (t.msp = neverContact) :=
      pipelineNever_of_mem hnt htm
    constructor
    · rw [hloc, hins]
    · rw [hloc]
      have hbl : r.blocked = (scopeMatchesAny blk t.source || decide (t.msp = neverContact)) := by
        rw [← hteq]
        rfl
      rw [hbl, hpn1, hpn2, Bool.or_false]

theorem filter_source_eq {sets : List MergedMirrorSet}
    (hnd : (sets.map MergedMirrorSet.source).Nodup) :
    ∀ {d : MergedMirrorSet}, d ∈ sets →
    sets.filter (fun t => decide (t.source = d.source)) = [d] := by
  induction sets with
  | nil => intro d hd; simp at hd
  | cons x xs ih =>
    intro d hd
    rw [List.map_cons, List.nodup_cons] at hnd
    by_cases hx : x.source = d.source
    · have hdx : d = x := by
        rcases List.mem_cons.mp hd with h | h
        · exact h
        · exfalso
          exact hnd.1 (by rw [hx]; exact List.mem_map.mpr ⟨d, h, rfl⟩)
      have hnil : xs.filter (fun t => decide (t.source = d.source)) = [] := by
        rw [List.filter_eq_nil_iff]
        intro t ht
        rw [decide_eq_true_eq]
        intro hts
        exact hnd.1 (by rw [hx, ← hts]; exact List.mem_map.mpr ⟨t, ht, rfl⟩)
      have hdec : decide (x.source = d.source) = true := by
        rw [decide_eq_true_eq]
        exact hx
      rw [List.filter_cons, hdec, if_pos rfl, hnil, hdx]
    · have hd2 : d ∈ xs := by
        rcases List.mem_cons.mp hd with h | h
        · exact absurd (by rw [h]) hx
        · exact h
      rw [List.filter_cons]
      have : decide (x.source = d.source) = false := by
        rw [decide_eq_false_iff_not]
        exact hx
      rw [this]
      simp only [Bool.false_eq_true, if_false]
      exact ih hnd.2 hd2

/-! ### Mirror-shape preservation through scope processing -/

theorem applyScopes_shape {k : Bool} {ins blk : List String} (s : String) :
    ∀ (scopes : List String) (recs out : List Registry),
    applyScopes k ins blk recs scopes = .ok out →
    s ∈ recs.map Registry.location →
    ((out.filter (fun r => decide (r.pfx = "") && decide (r.location = s))).map mirrorShape =
      (recs.filter (fun r => decide (r.pfx = "") && decide (r.location = s))).map mirrorShape ∧
      s ∈ out.map Registry.location) := by
  intro scopes
  induction scopes with
  | nil =>
    intro recs out h hs
    rw [applyScopes] at h
    rw [← Except.ok.inj h]
    exact ⟨rfl, hs⟩
  | cons sc rest ih =>
    intro recs out h hs
    rw [applyScopes] at h
    rcases hps : processScope k ins blk recs sc with e | recs2
    · rw [hps] at h
      exact Except.noConfusion h
    · rw [hps] at h
      rcases processScope_ok hps with ⟨_, hrec⟩ | ⟨hanyf, nr, hrec, _, _, hshape⟩
      · have hs2 : s ∈ recs2.map Registry.location := by
          rw [hrec, List.map_map]
          have hcomp : (Registry.location ∘ fun r => if r.location = sc then setFlag k r else r) =
              Registry.location := by
            funext r
            exact updFlag_location k sc r
          rw [hcomp]
          exact hs
        obtain ⟨hfil, hmem⟩ := ih recs2 out h hs2
        refine ⟨?_, hmem⟩
        rw [hfil, hrec, List.filter_map]
        have hpcomp : ((fun r => decide (r.pfx = "") && decide (r.location = s)) ∘
            fun r => if r.location = sc then setFlag k r else r) =
            (fun r => decide (r.pfx = "") && decide (r.location = s)) := by
          funext r
          show (decide ((if r.location = sc then setFlag k r else r).pfx = "") &&
            decide ((if r.location = sc then setFlag k r else r).location = s)) = _
          rw [updFlag_pfx, updFlag_location]
        rw [hpcomp, List.map_map]
        have hmcomp : (mirrorShape ∘ fun r => if r.location = sc then setFlag k r else r) =
            mirrorShape := by
          funext r
          show ((if r.location = sc then setFlag k r else r).mirrors).map _ = _
          rw [updFlag_mirrors]
          rfl
        rw [hmcomp]
      · have hscne : sc ≠ s := by
          intro hse
          rcases List.mem_map.mp hs with ⟨r0, hr0, hr0loc⟩
          have : recs.any (fun r => decide (r.location = sc)) = true := by
            rw [List.any_eq_true]
            exact ⟨r0, hr0, by rw [decide_eq_true_eq, hr0loc, hse]⟩
          rw [this] at hanyf
          exact Bool.noConfusion hanyf
        have hpnr : (decide (nr.pfx = "") && decide (nr.location = s)) = false := by
          rcases hshape with ⟨_, h2⟩ | ⟨hwc, h1, _, _⟩
          · have : decide (nr.location = s) = false := by
              rw [decide_eq_false_iff_not]
              rw [h2]
              exact hscne
            rw [this, Bool.and_false]
          · have : decide (nr.pfx = "") = false := by
              rw [decide_eq_false_iff_not]
              rw [h1]
              exact wildcard_ne_empty hwc
            rw [this, Bool.false_and]
        have hs2 : s ∈ recs2.map Registry.location := by
          rw [hrec, List.map_append]
          exact List.mem_append_left _ hs
        obtain ⟨hfil, hmem⟩ := ih recs2 out h hs2
        refine ⟨?_, hmem⟩
        rw [hfil, hrec, List.filter_append]
        have : [nr].filter (fun r => decide (r.pfx = "") && decide (r.location = s)) = [] := by
          rw [List.filter_cons, hpnr]
          rfl
        rw [this, List.append_nil]

theorem baseRecords_filter_shape {ins blk : List String}
    {digestSets tagSets : List MergedMirrorSet}
    (hnd : (digestSets.map MergedMirrorSet.source).Nodup) {s : String}
    {d : MergedMirrorSet} (hd : d ∈ digestSets) (hds : d.source = s)
    {t : MergedMirrorSet} (ht : tagSetFor tagSets s = some t) :
    ((baseRecords ins blk digestSets tagSets).filter
        (fun r => decide (r.pfx = "") && decide (r.location = s))).map mirrorShape =
      [d.mirrors.map (fun m => (m, mirrorByDigestOnly)) ++
        t.mirrors.map (fun m => (m, mirrorByTagOnly))] := by
  rw [baseRecords, List.filter_append]
  have htag : (((tagSets.filter (fun t2 => digestSets.all (fun d2 => decide (d2.source ≠ t2.source)))).map
      (baseRecordForTag ins blk)).filter
        (fun r => decide (r.pfx = "") && decide (r.location = s))) = [] := by
    rw [List.filter_eq_nil_iff]
    intro r hr
    rcases List.mem_map.mp hr with ⟨t2, ht2, ht2eq⟩
    have hfilt := (List.mem_filter.mp ht2).2
    have hloc : r.location = t2.source := by rw [← ht2eq]; rfl
    intro hcon
    rw [Bool.and_eq_true, decide_eq_true_eq, decide_eq_true_eq] at hcon
    have hts : t2.source = s := by rw [← hloc]; exact hcon.2
    have := List.all_eq_true.mp hfilt d hd
    rw [decide_eq_true_eq] at this
    exact this (by rw [hds, ← hts])
  rw [htag, List.append_nil]
  rw [List.filter_map]
  have hpcomp : ((fun r => decide (r.pfx = "") && decide (r.location = s)) ∘
      baseRecordForDigest ins blk tagSets) = (fun d2 => decide (d2.source = s)) := by
    funext d2
    show (decide ((baseRecordForDigest ins blk tagSets d2).pfx = "") &&
      decide ((baseRecordForDigest ins blk tagSets d2).location = s)) = _
    have h1 : (baseRecordForDigest ins blk tagSets d2).pfx = "" := rfl
    have h2 : (baseRecordForDigest ins blk tagSets d2).location = d2.source := rfl
    rw [h1, h2]
    simp
  rw [hpcomp]
  have hfs : digestSets.filter (fun d2 => decide (d2.source = s)) = [d] := by
    rw [← hds]
    exact filter_source_eq hnd hd
  rw [hfs]
  have hshape : mirrorShape (baseRecordForDigest ins blk tagSets d) =
      d.mirrors.map (fun m => (m, mirrorByDigestOnly)) ++
        t.mirrors.map (fun m => (m, mirrorByTagOnly)) := by
    rw [mirrorShape]
    have hmir : (baseRecordForDigest ins blk tagSets d).mirrors =
        d.mirrors.map (mkMirrorEndpoint ins mirrorByDigestOnly) ++
          t.mirrors.map (mkMirrorEndpoint ins mirrorByTagOnly) := by
      have : (baseRecordForDigest ins blk tagSets d).mirrors =
          d.mirrors.map (mkMirrorEndpoint ins mirrorByDigestOnly) ++
            (match tagSetFor tagSets d.source with
              | some t2 => t2.mirrors.map (mkMirrorEndpoint ins mirrorByTagOnly)
              | none => []) := rfl
      rw [this, hds, ht]
    rw [hmir, List.map_append, List.map_map, List.map_map]
    have hc1 : ((fun m => (m.location, m.pullFrom)) ∘ mkMirrorEndpoint ins mirrorByDigestOnly) =
        (fun m => (m, mirrorByDigestOnly)) := rfl
    have hc2 : ((fun m => (m.location, m.pullFrom)) ∘ mkMirrorEndpoint ins mirrorByTagOnly) =
        (fun m => (m, mirrorByTagOnly)) := rfl
    rw [hc1, hc2]
  simp only [List.map_cons, List.map_nil]
  rw [hshape]

/-! ### Model validation against the repository's tests -/

theorem scopeNested_test_vectors :
    scopeIsNestedInsideScope "quay.io" "example.com" = false ∧
    scopeIsNestedInsideScope "quay.io" "quay.io" = true ∧
    scopeIsNestedInsideScope "quay.io:443" "quay.io" = false ∧
    scopeIsNestedInsideScope "quay.io:443" "quay.io:444" = false ∧
    scopeIsNestedInsideScope "quay.io.example.com" "quay.io" = false ∧
    scopeIsNestedInsideScope "quay.io2" "quay.io" = false ∧
    scopeIsNestedInsideScope "quay.io/ns1" "quay.io" = true ∧
    scopeIsNestedInsideScope "quay.io/ns1/ns2/ns3" "quay.io" = true ∧
    scopeIsNestedInsideScope "quay.io/ns1/ns2/ns3" "not-quay.io" = false ∧
    scopeIsNestedInsideScope "bar/example.foo" "*.foo" = false ∧
    scopeIsNestedInsideScope "example/bar.foo/quay.io" "*.foo" = false ∧
    scopeIsNestedInsideScope "example/bar.foo:400" "*.foo" = false ∧
    scopeIsNestedInsideScope "foo.example.com" "*.example.com" = true ∧
    scopeIsNestedInsideScope "*.foo.example.com" "*.example.com" = true ∧
    scopeIsNestedInsideScope "foo.example.com/bar" "*.example.com" = true ∧
    scopeIsNestedInsideScope "foo.registry.com" "*.example.com" = false ∧
    scopeIsNestedInsideScope "foo.example.com" "**.example.com" = false ∧
    scopeIsNestedInsideScope "foo.example.com" "example.*.com" = false ∧
    scopeIsNestedInsideScope "foo.example.com" "*.example.com/foo/bar" = false ∧
    scopeIsNestedInsideScope "foo.example.com:443/bar/baz" "*.example.com" = true ∧
    scopeIsNestedInsideScope "foo.example.com:443/bar/baz" "*.example.com/bar/baz" = false ∧
    scopeIsNestedInsideScope "foo.example.com" "*example.com" = false ∧
    scopeIsNestedInsideScope "foo.example.com" "*/example.com" = false := by
  decide

theorem validScope_test_vectors :
    IsValidRegistriesConfScope "example.com" = true ∧
    IsValidRegistriesConfScope "*.example.com" = true ∧
    IsValidRegistriesConfScope "**.example.com" = false ∧
    IsValidRegistriesConfScope "example.*.com" = false ∧
    IsValidRegistriesConfScope "*.example.com/foo/bar" = false ∧
    IsValidRegistriesConfScope "*.example.com:foo" = false ∧
    IsValidRegistriesConfScope "*.example.com/foo:sha@bar" = false ∧
    IsValidRegistriesConfScope "*.example.com.*.bar.com" = false ∧
    IsValidRegistriesConfScope "*example.com" = false ∧
    IsValidRegistriesConfScope "*/example.com" = false ∧
    IsValidRegistriesConfScope "*.*example.com" = false ∧
    IsValidRegistriesConfScope "" = false := by
  decide

theorem mirrorsContainsARealMirror_test_vectors :
    mirrorsContainsARealMirror "source.example.com" [] = false ∧
    mirrorsContainsARealMirror "source.example.com" ["mirror.local"] = true ∧
    mirrorsContainsARealMirror "source.example.com" ["source.example.com"] = false ∧
    mirrorsContainsARealMirror "source.example.com"
      ["source.example.com", "source.example.com", "source.example.com"] = false ∧
    mirrorsContainsARealMirror "source.example.com" ["mirror.local", "source.example.com"] = true ∧
    mirrorsContainsARealMirror "source.example.com" ["source.example.com", "mirror.local"] = true ∧
    mirrorsContainsARealMirror "source.example.com" ["m1.local", "m2.local", "m3.local"] = true := by
  decide

theorem mergedMirrorSets_test_separate :
    mergedDigestMirrorSets
      [[⟨"source.example.net", ["z1.example.net", "y2.example.net", "x3.example.net"], ""⟩],
       [⟨"source.example.com", ["z1.example.com", "y2.example.com", "x3.example.com"], ""⟩]] []
    = [⟨"source.example.com", ["z1.example.com", "y2.example.com", "x3.example.com"], ""⟩,
       ⟨"source.example.net", ["z1.example.net", "y2.example.net", "x3.example.net"], ""⟩] := by
  decide

theorem mergedMirrorSets_test_shared :
    mergedDigestMirrorSets
      [[⟨"source.example.net", ["z1.example.net", "y2.example.net"], ""⟩,
        ⟨"source.example.com", ["z1.example.com", "y2.example.com"], ""⟩],
       [⟨"source.example.net", ["y2.example.net", "x3.example.net"], ""⟩,
        ⟨"source.example.com", ["y2.example.com", "x3.example.com"], ""⟩]] []
    = [⟨"source.example.com", ["z1.example.com", "y2.example.com", "x3.example.com"], ""⟩,
       ⟨"source.example.net", ["z1.example.net", "y2.example.net", "x3.example.net"], ""⟩] := by
  decide

theorem mergedMirrorSets_test_self_in_mirrors :
    mergedDigestMirrorSets
      [[⟨"source.example.com", ["z1.example.com", "source.example.com", "y2.example.com"], ""⟩,
        ⟨"source.example.com", ["source.example.com", "y2.example.com", "x3.example.com"], ""⟩]] []
    = [⟨"source.example.com",
        ["z1.example.com", "source.example.com", "y2.example.com", "x3.example.com"], ""⟩] := by
  decide

theorem mergedMirrorSets_test_self_only :
    mergedDigestMirrorSets
      [[⟨"source.example.com", ["source.example.com"], ""⟩,
        ⟨"source.example.net",
          ["source.example.net", "source.example.net", "source.example.net"], ""⟩]] []
    = [] := by
  decide

theorem mergedMirrorSets_test_example :
    mergedDigestMirrorSets
      [[⟨"source.vendor.com", ["registry2.vendor.com"], ""⟩],
       [⟨"source.vendor2.com", ["registry1.vendor2.com", "registry2.vendor2.com"], ""⟩],
       [⟨"source.vendor.com", ["local-mirror.example.com"], ""⟩,
        ⟨"source.vendor2.com",
          ["local-mirror2.example.com", "registry2.vendor2.com", "registry1.vendor2.com"], ""⟩]] []
    = [⟨"source.vendor.com", ["local-mirror.example.com", "registry2.vendor.com"], ""⟩,
       ⟨"source.vendor2.com",
        ["local-mirror2.example.com", "registry1.vendor2.com", "registry2.vendor2.com"], ""⟩] := by
  decide

theorem editTest_unchanged :
    EditRegistriesConfig templateConf [] [] [] [] [] = .ok templateConf := by rfl

theorem editTest_insecure_blocked :
    EditRegistriesConfig templateConf ibInsecure ibBlocked [] [] [] =
      .ok ⟨templateConf.unqualifiedSearchRegistries, ibWant⟩ := by rfl

theorem editTest_icsp :
    EditRegistriesConfig templateConf icspTInsecure icspTBlocked icspTRules [] [] =
      .ok ⟨templateConf.unqualifiedSearchRegistries, icspTWant⟩ := by rfl

theorem editTest_idms_wildcards :
    EditRegistriesConfig templateConf icspTInsecure icspTBlocked []
      [[⟨"insecure.com/ns-i1", ["blocked.com/ns-b1", "other.com/ns-o1"], ""⟩,
        ⟨"blocked.com/ns-b/ns2-b", ["other.com/ns-o2", "insecure.com/ns-i2"], ""⟩,
        ⟨"other.com/ns-o3",
          ["insecure.com/ns-i2", "blocked.com/ns-b/ns3-b", "foo.insecure-example.com/bar"], ""⟩]]
      [] = .ok ⟨templateConf.unqualifiedSearchRegistries, icspTWant⟩ := by rfl

theorem editTest_tag_only :
    EditRegistriesConfig templateConf [] [] [] []
      [[⟨"registry-a.com", ["mirror-tag-1.registry-a.com"], ""⟩,
        ⟨"registry-b.com", ["mirror-tag-1.registry-b.com"], ""⟩]] =
      .ok ⟨templateConf.unqualifiedSearchRegistries,
        [⟨"", "registry-a.com", false, false,
           [⟨"mirror-tag-1.registry-a.com", false, "tag-only"⟩]⟩,
         ⟨"", "registry-b.com", false, false,
           [⟨"mirror-tag-1.registry-b.com", false, "tag-only"⟩]⟩]⟩ := by rfl

theorem editTest_digest_tag :
    EditRegistriesConfig templateConf [] [] [] dtIdms dtItms =
      .ok ⟨templateConf.unqualifiedSearchRegistries, dtWant⟩ := by rfl

theorem editTest_msp :
    EditRegistriesConfig templateConf [] [] [] mspIdms mspItms =
      .ok ⟨templateConf.unqualifiedSearchRegistries, mspWant⟩ := by rfl

theorem editTest_carve :
    EditRegistriesConfig templateConf ["primary.com/top/insecure"] ["primary.com/top/blocked"]
      [] carveIdms carveItms =
      .ok ⟨templateConf.unqualifiedSearchRegistries, carveWant⟩ := by rfl

theorem editTest_carve_icsp :
    EditRegistriesConfig templateConf ["primary.com/top/insecure"] ["primary.com/top/blocked"]
      carveIcsp [] [] =
      .ok ⟨templateConf.unqualifiedSearchRegistries, carveIcspWant⟩ := by rfl

theorem editTest_conflict :
    EditRegistriesConfig templateConf [] [] conflictIcsp conflictIdms [] =
      .ok ⟨templateConf.unqualifiedSearchRegistries, conflictWant⟩ := by rfl

theorem mirrorsAdjusted_test_vectors :
    mirrorsAdjustedForNestedScope "mirrored.com" "unrelated.com" [] =
      .error "internal error: mismatched scopes" ∧
    mirrorsAdjustedForNestedScope "*.example.com" "*.nested.example.com" [] =
      .error "internal error: mismatched scopes" ∧
    mirrorsAdjustedForNestedScope "example.com" "example.com/subscope"
      [⟨"mirror-1.com", false, ""⟩, ⟨"mirror-2.com/nested", false, ""⟩,
       ⟨"example.com", false, ""⟩] =
      .ok [⟨"mirror-1.com/subscope", false, ""⟩, ⟨"mirror-2.com/nested/subscope", false, ""⟩,
        ⟨"example.com/subscope", false, ""⟩] := by
  refine ⟨by rfl, by rfl, by rfl⟩

/-! ### Shared helper lemmas for the claims -/

/-- A merged set carries `NeverContactSource` exactly when some entry for
its source declared it. -/
theorem mergedMirrorSets_msp_iff {entries : List MirrorEntry} {ms : MergedMirrorSet}
    (h : ms ∈ mergedMirrorSets entries) :
    ms.msp = neverContact ↔ sourceNever entries ms.source = true := by
  have hmsp := (mergedMirrorSets_mem h).2.1
  by_cases hn : sourceNever entries ms.source = true
  · have h1 : ms.msp = neverContact := by
      rw [hmsp, hn]
      rfl
    exact ⟨fun _ => hn, fun _ => h1⟩
  · have hb : sourceNever entries ms.source = false := Bool.eq_false_iff.mpr hn
    have h1 : ms.msp = "" := by
      rw [hmsp, hb]
      rfl
    constructor
    · intro hc
      rw [h1] at hc
      exact absurd hc (by decide)
    · intro hc
      exact absurd hc hn

/-- On a source the merger emitted, the pipeline's `NeverContactSource`
flag agrees with the raw entries' flag. -/
theorem pipelineNever_eq_sourceNever {entries : List MirrorEntry} {s : String}
    (hs : s ∈ (mergedMirrorSets entries).map MergedMirrorSet.source) :
    pipelineNever (mergedMirrorSets entries) s = sourceNever entries s := by
  rcases List.mem_map.mp hs with ⟨ms, hms, hsrc⟩
  have h1 : pipelineNever (mergedMirrorSets entries) ms.source =
      decide (ms.msp = neverContact) :=
    pipelineNever_of_mem (mergedMirrorSets_sources_nodup entries) hms
  have h2 := mergedMirrorSets_msp_iff hms
  rw [← hsrc, h1]
  cases hb : sourceNever entries ms.source with
  | false =>
    rw [decide_eq_false_iff_not]
    intro hc
    exact Bool.noConfusion ((h2.mp hc).symm.trans hb)
  | true =>
    rw [decide_eq_true_eq]
    exact h2.mpr hb

/-- The `mirrorsAdjustedForNestedScope` branches, unconditionally. -/
theorem mirrorsAdjusted_cases (p c : String) (mirrors : List Endpoint) :
    (¬ (scopeIsNestedInsideScope c p = true ∧ isWildcardScope p = false) →
      mirrorsAdjustedForNestedScope p c mirrors = .error "internal error: mismatched scopes") ∧
    (scopeIsNestedInsideScope c p = true → isWildcardScope p = false →
      mirrorsAdjustedForNestedScope p c mirrors = .ok (mirrors.map (fun m =>
        { m with location := m.location ++ scopeSuffix p c }))) := by
  rw [mirrorsAdjustedForNestedScope]
  constructor
  · intro hfail
    have hcond : (!(scopeIsNestedInsideScope c p) || isWildcardScope p) = true := by
      rcases Bool.eq_false_or_eq_true (scopeIsNestedInsideScope c p) with h1 | h1
      · rcases Bool.eq_false_or_eq_true (isWildcardScope p) with h2 | h2
        · rw [h2, Bool.or_true]
        · exact absurd ⟨h1, h2⟩ hfail
      · rw [h1]
        rfl
    rw [hcond]
    rfl
  · intro hn hw
    have hcond : (!(scopeIsNestedInsideScope c p) || isWildcardScope p) = false := by
      rw [hn, hw]
      rfl
    rw [hcond]
    rfl

/-! ### The claims -/

/-- Claim C1 (corrected): the spec says an ICSP object and an IDMS object
sharing a source yield two separate records.  In the model — pinned by the
repository's "Confict" test — the digest pipeline merges ICSP and IDMS
entries together, so a shared source yields exactly ONE record whose
mirrors are merged across the origins; merged-set sources are unique, so
one source can never produce two mirror-set records. -/
theorem c1_single_record_per_source :
    (∀ (idms icsp : List (List MirrorEntry)),
      ((mergedDigestMirrorSets idms icsp).map MergedMirrorSet.source).Nodup) ∧
    EditRegistriesConfig templateConf [] [] conflictIcsp conflictIdms [] =
      .ok ⟨templateConf.unqualifiedSearchRegistries, conflictWant⟩ ∧
    (conflictWant.filter (fun r => decide (r.location = "insecure.com/ns-dupe-i1"))).length
      = 1 := by
  exact ⟨fun idms icsp => mergedMirrorSets_sources_nodup _, by rfl, by decide⟩

/-- Claim C1, counterexample to the spec's sentence: in the repository's
"Confict" test the source `insecure.com/ns-dupe-i1` is declared both by an
ICSP object and by an IDMS object, yet the expected output holds exactly
one record for it (not two). -/
theorem c1_counterexample :
    EditRegistriesConfig templateConf [] [] conflictIcsp conflictIdms [] =
      .ok ⟨templateConf.unqualifiedSearchRegistries, conflictWant⟩ ∧
    (∃ e ∈ conflictIcsp.flatten, MirrorEntry.source e = "insecure.com/ns-dupe-i1") ∧
    (∃ e ∈ conflictIdms.flatten, MirrorEntry.source e = "insecure.com/ns-dupe-i1") ∧
    (conflictWant.filter (fun r => decide (r.location = "insecure.com/ns-dupe-i1"))).length
      = 1 ∧
    ¬ (conflictWant.filter
        (fun r => decide (r.location = "insecure.com/ns-dupe-i1"))).length = 2 := by
  exact ⟨by rfl, by decide, by decide, by decide, by decide⟩

/-- Claim C2 (confirmed): every pair of mirror names adjacent in some
entry's mirror list for a source S keeps its order in S's merged mirror
list, unless the two fall into one strongly-connected component of the
per-source graph; both still appear in the output, and SCC members that
stand in first-seen order (the graph's node order) keep that order.  The
concrete instance merges `[z1, y2]` and `[y2, x3]` to `[z1, y2, x3]`. -/
theorem c2_order_respect :
    (∀ (entries : List MirrorEntry) (S : String) (e : MirrorEntry) (a b : String),
      e ∈ entries → e.source = S → (a, b) ∈ adjPairs e.mirrors →
      a ∈ mergedMirrorsOf entries S ∧ b ∈ mergedMirrorsOf entries S ∧
      (sameSCC (graphForSource entries S) a b = false →
        before (mergedMirrorsOf entries S) a b = true) ∧
      (sameSCC (graphForSource entries S) a b = true →
        before (graphForSource entries S).nodes a b = true →
        before (mergedMirrorsOf entries S) a b = true)) ∧
    (∀ (entries : List MirrorEntry) (ms : MergedMirrorSet), ms ∈ mergedMirrorSets entries →
      ms.mirrors = mergedMirrorsOf entries ms.source) ∧
    mergedDigestMirrorSets
      [[⟨"s.example.net", ["z1.example.net", "y2.example.net"], ""⟩],
       [⟨"s.example.net", ["y2.example.net", "x3.example.net"], ""⟩]] [] =
      [⟨"s.example.net", ["z1.example.net", "y2.example.net", "x3.example.net"], ""⟩] := by
  refine ⟨?_, fun entries ms h => (mergedMirrorSets_mem h).1, by decide⟩
  intro entries S e a b he hs hadj
  have hWF := graphForSource_WF entries S
  have hedge := graphForSource_adj he hs hadj
  have ha : a ∈ (graphForSource entries S).nodes := (hWF.2 _ hedge).1
  have hb : b ∈ (graphForSource entries S).nodes := (hWF.2 _ hedge).2
  refine ⟨topoResult_mem ha, topoResult_mem hb, ?_, ?_⟩
  · intro hns
    exact topoResult_edge_before hWF hedge hns
  · intro hscc hbef
    exact topoResult_scc_before hWF.1 hscc ha hb hbef

/-- Claim C2, witness: the universal part applied to a single entry
`src.com → [m1.com, m2.com]` and its adjacent pair. -/
theorem c2_witness :
    "m1.com" ∈ mergedMirrorsOf [⟨"src.com", ["m1.com", "m2.com"], ""⟩] "src.com" ∧
    "m2.com" ∈ mergedMirrorsOf [⟨"src.com", ["m1.com", "m2.com"], ""⟩] "src.com" ∧
    (sameSCC (graphForSource [⟨"src.com", ["m1.com", "m2.com"], ""⟩] "src.com")
        "m1.com" "m2.com" = false →
      before (mergedMirrorsOf [⟨"src.com", ["m1.com", "m2.com"], ""⟩] "src.com")
        "m1.com" "m2.com" = true) ∧
    (sameSCC (graphForSource [⟨"src.com", ["m1.com", "m2.com"], ""⟩] "src.com")
        "m1.com" "m2.com" = true →
      before (graphForSource [⟨"src.com", ["m1.com", "m2.com"], ""⟩] "src.com").nodes
        "m1.com" "m2.com" = true →
      before (mergedMirrorsOf [⟨"src.com", ["m1.com", "m2.com"], ""⟩] "src.com")
        "m1.com" "m2.com" = true) :=
  c2_order_respect.1 [⟨"src.com", ["m1.com", "m2.com"], ""⟩] "src.com"
    ⟨"src.com", ["m1.com", "m2.com"], ""⟩ "m1.com" "m2.com"
    (by decide) rfl (by decide)

/-- Claim C3 (corrected): the spec's Kahn tie-break — pick the ready
vertex whose smallest member by FIRST-SEEN order is smallest — would make
an edge-free merge reproduce insertion order.  The model (pinned by the
repository's "Confict" test, whose singleton mirror lists arrive in the
order o1, o3, o2 yet come out o1, o2, o3) breaks ties by the
LEXICOGRAPHICALLY smallest member: with no edges the result is the node
multiset sorted lexicographically. -/
theorem c3_lex_tiebreak :
    ∀ (entries : List MirrorEntry) (S : String),
      (∀ e ∈ entries, e.source = S → e.mirrors.length ≤ 1) →
      List.Sorted (fun a b => strLe a b = true) (mergedMirrorsOf entries S) ∧
      (mergedMirrorsOf entries S).Perm (graphForSource entries S).nodes := by
  intro entries S h
  have hE := graphForSource_edges_nil h
  have hWF := graphForSource_WF entries S
  exact ⟨topoResult_sorted_no_edges hE hWF.1, topoResult_perm _⟩

/-- Claim C3, witness: three singleton sequences inserted in the order
o1, o3, o2. -/
theorem c3_witness :
    List.Sorted (fun a b => strLe a b = true)
      (mergedMirrorsOf [⟨"s.com", ["o1.com"], ""⟩, ⟨"s.com", ["o3.com"], ""⟩,
        ⟨"s.com", ["o2.com"], ""⟩] "s.com") ∧
    (mergedMirrorsOf [⟨"s.com", ["o1.com"], ""⟩, ⟨"s.com", ["o3.com"], ""⟩,
        ⟨"s.com", ["o2.com"], ""⟩] "s.com").Perm
      (graphForSource [⟨"s.com", ["o1.com"], ""⟩, ⟨"s.com", ["o3.com"], ""⟩,
        ⟨"s.com", ["o2.com"], ""⟩] "s.com").nodes :=
  c3_lex_tiebreak [⟨"s.com", ["o1.com"], ""⟩, ⟨"s.com", ["o3.com"], ""⟩,
    ⟨"s.com", ["o2.com"], ""⟩] "s.com" (by decide)

/-- Claim C3, counterexample to the first-seen tie-break: in the
repository's "Confict" test the source `insecure.com/ns-dupe-i1` gets the
singleton mirror sequences o1, o3, o2 in that first-seen order (the graph
has no edges), yet the merged list — and the expected test output — is the
sorted o1, o2, o3, not the first-seen order. -/
theorem c3_counterexample :
    (graphForSource (conflictIdms.flatten ++ conflictIcsp.flatten)
        "insecure.com/ns-dupe-i1").nodes =
      ["other.com/ns-o1", "other.com/ns-o3", "other.com/ns-o2"] ∧
    (graphForSource (conflictIdms.flatten ++ conflictIcsp.flatten)
        "insecure.com/ns-dupe-i1").edges = [] ∧
    mergedMirrorsOf (conflictIdms.flatten ++ conflictIcsp.flatten)
        "insecure.com/ns-dupe-i1" =
      ["other.com/ns-o1", "other.com/ns-o2", "other.com/ns-o3"] ∧
    mergedMirrorsOf (conflictIdms.flatten ++ conflictIcsp.flatten)
        "insecure.com/ns-dupe-i1" ≠
      (graphForSource (conflictIdms.flatten ++ conflictIcsp.flatten)
        "insecure.com/ns-dupe-i1").nodes ∧
    EditRegistriesConfig templateConf [] [] conflictIcsp conflictIdms [] =
      .ok ⟨templateConf.unqualifiedSearchRegistries, conflictWant⟩ := by
  exact ⟨by decide, by decide, by decide, by decide, by rfl⟩

/-- Claim C4 (corrected): a source S ≠ "" none of whose entries names a
mirror other than S itself survives neither pipeline and leaves no record
with location S (S not being a listed insecure/blocked scope).  The
restriction S ≠ "" is new: see the counterexample. -/
theorem c4_elision :
    ∀ (cfg : V2RegistriesConf) (ins blk : List String)
      (icsp idms itms : List (List MirrorEntry)) (out : V2RegistriesConf) (S : String),
      EditRegistriesConfig cfg ins blk icsp idms itms = .ok out →
      cfg.registries = [] →
      (∀ e ∈ idms.flatten ++ icsp.flatten ++ itms.flatten, e.source = S →
        ∀ m ∈ e.mirrors, m = S) →
      S ∉ ins → S ∉ blk → S ≠ "" →
      S ∉ (mergedDigestMirrorSets idms icsp).map MergedMirrorSet.source ∧
      S ∉ (mergedTagMirrorSets itms).map MergedMirrorSet.source ∧
      ∀ r ∈ out.registries, r.location ≠ S := by
  intro cfg ins blk icsp idms itms out S h hcfg hm hins hblk hne
  have hd : ∀ e ∈ idms.flatten ++ icsp.flatten, e.source = S → ∀ m ∈ e.mirrors, m = S :=
    fun e he => hm e (List.mem_append_left _ he)
  have ht : ∀ e ∈ itms.flatten, e.source = S → ∀ m ∈ e.mirrors, m = S :=
    fun e he => hm e (List.mem_append_right _ he)
  have hnd2 : S ∉ (mergedMirrorSets (idms.flatten ++ icsp.flatten)).map
      MergedMirrorSet.source :=
    mergedMirrorSets_not_mem (sourceHasRealMirror_false hd)
  have hnt2 : S ∉ (mergedMirrorSets itms.flatten).map MergedMirrorSet.source :=
    mergedMirrorSets_not_mem (sourceHasRealMirror_false ht)
  refine ⟨hnd2, hnt2, ?_⟩
  obtain ⟨hval, recs1, h1, recs2, h2, husr, hreg⟩ := EditRegistriesConfig_ok h
  have hQ0 : ∀ r ∈ baseRecords ins blk (mergedDigestMirrorSets idms icsp)
      (mergedTagMirrorSets itms), r.location ≠ S := by
    intro r hr hc
    have hmem : r.location ∈ (baseRecords ins blk (mergedDigestMirrorSets idms icsp)
        (mergedTagMirrorSets itms)).map Registry.location :=
      List.mem_map.mpr ⟨r, hr, rfl⟩
    rw [baseRecords_map_loc] at hmem
    rcases List.mem_append.mp hmem with h1 | h1
    · rw [hc] at h1
      exact hnd2 h1
    · rcases List.mem_map.mp h1 with ⟨t, htm, hts⟩
      have htm2 : t ∈ mergedTagMirrorSets itms := List.mem_of_mem_filter htm
      exact hnt2 (List.mem_map.mpr ⟨t, htm2, by rw [hts, hc]⟩)
  have hQ1 : ∀ r ∈ recs1, r.location ≠ S :=
    applyScopes_loc_pred (fun x => x ≠ S) blk _ recs1 h1 hQ0
      (fun sc hsc hc => hblk (hc ▸ hsc)) (fun hc => hne hc.symm)
  have hQ2 : ∀ r ∈ recs2, r.location ≠ S :=
    applyScopes_loc_pred (fun x => x ≠ S) ins recs1 recs2 h2 hQ1
      (fun sc hsc hc => hins (hc ▸ hsc)) (fun hc => hne hc.symm)
  intro r hr
  rw [hreg, hcfg, List.nil_append] at hr
  exact hQ2 r hr

/-- Claim C4, witness: a source whose single entry mirrors only itself is
elided and the output (here: unchanged template) has no record for it. -/
theorem c4_witness :
    "src.example.com" ∉
      (mergedDigestMirrorSets [] [[⟨"src.example.com", ["src.example.com"], ""⟩]]).map
        MergedMirrorSet.source ∧
    "src.example.com" ∉ (mergedTagMirrorSets []).map MergedMirrorSet.source ∧
    ∀ r ∈ templateConf.registries, r.location ≠ "src.example.com" :=
  c4_elision templateConf [] [] [[⟨"src.example.com", ["src.example.com"], ""⟩]] [] []
    templateConf "src.example.com" (by rfl) rfl (by decide) (by decide) (by decide)
    (by decide)

/-- Claim C4, counterexample for S = "": the empty source's entry mirrors
only itself and "" is in neither scope list, yet a wildcard blocked scope
produces a standalone record whose location IS "" (wildcard records carry
the scope in the prefix field and an empty location). -/
theorem c4_counterexample :
    EditRegistriesConfig templateConf [] ["*.b.example.com"] [[⟨"", [""], ""⟩]] [] [] =
      .ok ⟨templateConf.unqualifiedSearchRegistries,
        [⟨"*.b.example.com", "", false, true, []⟩]⟩ ∧
    (∀ e ∈ [(⟨"", [""], ""⟩ : MirrorEntry)], ∀ m ∈ MirrorEntry.mirrors e,
      m = MirrorEntry.source e) ∧
    "" ∉ ([] : List String) ∧
    "" ∉ ["*.b.example.com"] ∧
    ∃ r ∈ [(⟨"*.b.example.com", "", false, true, []⟩ : Registry)],
      Registry.location r = "" := by
  exact ⟨by rfl, by decide, by decide, by decide, ⟨_, List.mem_cons_self _ _, rfl⟩⟩

/-- Claim C5 (corrected): for the S5 scenario (single IDMS rule
`primary.com/top → [mirror.com/primary]`, insecure
`[primary.com/top/insecure]`, blocked `[primary.com/top/blocked]`) the
carved records inherit the parent mirrors with the relative suffix and are
appended AFTER the parent — but the blocked phase runs first, so the order
is top, top/blocked, top/insecure, not the spec's top, top/insecure,
top/blocked; and in the repository's carving test the carved records land
at the very end of the list, not immediately after their parent. -/
theorem c5_subscope_carving :
    EditRegistriesConfig templateConf ["primary.com/top/insecure"]
        ["primary.com/top/blocked"] [] s5Idms [] =
      .ok ⟨templateConf.unqualifiedSearchRegistries, s5Registries⟩ ∧
    s5Registries.map Registry.location =
      ["primary.com/top", "primary.com/top/blocked", "primary.com/top/insecure"] ∧
    s5Registries.map mirrorShape =
      [[("mirror.com/primary", "digest-only")],
       [("mirror.com/primary/blocked", "digest-only")],
       [("mirror.com/primary/insecure", "digest-only")]] ∧
    s5Registries.map (fun r => (r.insecure, r.blocked)) =
      [(false, false), (false, true), (true, false)] := by
  exact ⟨by rfl, by rfl, by rfl, by rfl⟩

/-- Claim C5, counterexample to the spec's record order: the repository's
carving test expects the blocked carved record before the insecure one,
and both only after every mirror record (not right after the parent); the
model reproduces that expectation, and on the S5 input itself it puts
top/blocked before top/insecure — the spec's order reversed. -/
theorem c5_counterexample :
    EditRegistriesConfig templateConf ["primary.com/top/insecure"]
        ["primary.com/top/blocked"] [] carveIdms carveItms =
      .ok ⟨templateConf.unqualifiedSearchRegistries, carveWant⟩ ∧
    carveWant.map Registry.location =
      ["primary.com/top", "primary.com/top/insecure/more-specific",
       "primary.com/top/blocked", "primary.com/top/insecure"] ∧
    EditRegistriesConfig templateConf ["primary.com/top/insecure"]
        ["primary.com/top/blocked"] [] s5Idms [] =
      .ok ⟨templateConf.unqualifiedSearchRegistries, s5Registries⟩ ∧
    s5Registries.map Registry.location ≠
      ["primary.com/top", "primary.com/top/insecure", "primary.com/top/blocked"] := by
  exact ⟨by rfl, by rfl, by rfl, by decide⟩

/-- Claim C6 (confirmed): an emitted mirror record's Insecure bit is the
insecure-scope lookup of its location and its Blocked bit is the
blocked-scope lookup or either pipeline's `NeverContactSource` flag for
that source; the scope lookup is exactly "nested inside some listed
scope", and a pipeline flag holds exactly when some contributing entry for
the source declared `mirrorSourcePolicy = NeverContactSource`. -/
theorem c6_flag_bits :
    ∀ (cfg : V2RegistriesConf) (ins blk : List String)
      (icsp idms itms : List (List MirrorEntry)) (out : V2RegistriesConf) (r : Registry),
      EditRegistriesConfig cfg ins blk icsp idms itms = .ok out →
      cfg.registries = [] →
      r ∈ out.registries → r.pfx = "" →
      r.location ∈ (mergedDigestMirrorSets idms icsp).map MergedMirrorSet.source ++
        (mergedTagMirrorSets itms).map MergedMirrorSet.source →
      (r.insecure = scopeMatchesAny ins r.location ∧
       r.blocked = (scopeMatchesAny blk r.location ||
         pipelineNever (mergedDigestMirrorSets idms icsp) r.location ||
         pipelineNever (mergedTagMirrorSets itms) r.location)) ∧
      (∀ s ∈ (mergedDigestMirrorSets idms icsp).map MergedMirrorSet.source,
        pipelineNever (mergedDigestMirrorSets idms icsp) s =
          sourceNever (idms.flatten ++ icsp.flatten) s) ∧
      (∀ s ∈ (mergedTagMirrorSets itms).map MergedMirrorSet.source,
        pipelineNever (mergedTagMirrorSets itms) s = sourceNever itms.flatten s) ∧
      (∀ (entries : List MirrorEntry) (s : String),
        sourceNever entries s = true ↔
          ∃ e ∈ entries, e.source = s ∧ e.msp = neverContact) ∧
      (∀ (scopes : List String) (s : String),
        scopeMatchesAny scopes s = true ↔
          ∃ t ∈ scopes, scopeIsNestedInsideScope s t = true) := by
  intro cfg ins blk icsp idms itms out r h hcfg hr hpfx hloc
  obtain ⟨hval, recs1, h1, recs2, h2, husr, hreg⟩ := EditRegistriesConfig_ok h
  have hndd : ((mergedDigestMirrorSets idms icsp).map MergedMirrorSet.source).Nodup :=
    mergedMirrorSets_sources_nodup (idms.flatten ++ icsp.flatten)
  have hndt : ((mergedTagMirrorSets itms).map MergedMirrorSet.source).Nodup :=
    mergedMirrorSets_sources_nodup itms.flatten
  have hbase := @baseRecords_bits ins blk (mergedDigestMirrorSets idms icsp)
    (mergedTagMirrorSets itms) hndd hndt
  have hvb : ∀ sc ∈ blk, IsValidRegistriesConfScope sc = true :=
    fun sc hsc => hval sc (List.mem_append_right _ hsc)
  have hvi : ∀ sc ∈ ins, IsValidRegistriesConfScope sc = true :=
    fun sc hsc => hval sc (List.mem_append_left _ hsc)
  have hk1 : ∀ sc ∈ blk, (true = true → sc ∈ blk) ∧ (true = false → sc ∈ ins) :=
    fun sc hsc => ⟨fun _ => hsc, fun hc => absurd hc (by decide)⟩
  have hk2 : ∀ sc ∈ ins, (false = true → sc ∈ blk) ∧ (false = false → sc ∈ ins) :=
    fun sc hsc => ⟨fun hc => absurd hc (by decide), fun _ => hsc⟩
  obtain ⟨hbitsO1, hlocO1⟩ := applyScopes_bits (mergedDigestMirrorSets idms icsp)
    (mergedTagMirrorSets itms) blk _ recs1 h1 hvb hk1
    (fun r2 hr2 _ _ => hbase r2 hr2) (baseRecords_loc_sources ins blk _ _)
  obtain ⟨hbitsO2, _⟩ := applyScopes_bits (mergedDigestMirrorSets idms icsp)
    (mergedTagMirrorSets itms) ins recs1 recs2 h2 hvi hk2 hbitsO1 hlocO1
  have hr2 : r ∈ recs2 := by
    rw [hreg, hcfg, List.nil_append] at hr
    exact hr
  refine ⟨hbitsO2 r hr2 hpfx hloc, ?_, ?_, ?_, ?_⟩
  · intro s hs
    exact pipelineNever_eq_sourceNever hs
  · intro s hs
    exact pipelineNever_eq_sourceNever hs
  · intro entries s
    rw [sourceNever, List.any_eq_true]
    constructor
    · intro ⟨e, he, hp⟩
      rw [Bool.and_eq_true, decide_eq_true_eq, decide_eq_true_eq] at hp
      exact ⟨e, he, hp⟩
    · intro ⟨e, he, h1e, h2e⟩
      refine ⟨e, he, ?_⟩
      rw [Bool.and_eq_true, decide_eq_true_eq, decide_eq_true_eq]
      exact ⟨h1e, h2e⟩
  · intro scopes s
    rw [scopeMatchesAny, List.any_eq_true]

/-- Claim C6, witness: the "mirrorSourcePolicy" test's `registry-b.com`
record — blocked through the tag pipeline's `NeverContactSource`, not
through any blocked scope. -/
theorem c6_witness :
    (false = scopeMatchesAny [] "registry-b.com" ∧
     true = (scopeMatchesAny [] "registry-b.com" ||
       pipelineNever (mergedDigestMirrorSets mspIdms []) "registry-b.com" ||
       pipelineNever (mergedTagMirrorSets mspItms) "registry-b.com")) ∧
    (∀ s ∈ (mergedDigestMirrorSets mspIdms []).map MergedMirrorSet.source,
      pipelineNever (mergedDigestMirrorSets mspIdms []) s =
        sourceNever (mspIdms.flatten ++ ([] : List (List MirrorEntry)).flatten) s) ∧
    (∀ s ∈ (mergedTagMirrorSets mspItms).map MergedMirrorSet.source,
      pipelineNever (mergedTagMirrorSets mspItms) s = sourceNever mspItms.flatten s) ∧
    (∀ (entries : List MirrorEntry) (s : String),
      sourceNever entries s = true ↔
        ∃ e ∈ entries, e.source = s ∧ e.msp = neverContact) ∧
    (∀ (scopes : List String) (s : String),
      scopeMatchesAny scopes s = true ↔
        ∃ t ∈ scopes, scopeIsNestedInsideScope s t = true) :=
  c6_flag_bits templateConf [] [] [] mspIdms mspItms
    ⟨templateConf.unqualifiedSearchRegistries, mspWant⟩
    ⟨"", "registry-b.com", false, true,
      [⟨"mirror-digest-1.registry-b.com", false, "digest-only"⟩,
       ⟨"mirror-digest-2.registry-b.com", false, "digest-only"⟩,
       ⟨"mirror-tag-1.registry-b.com", false, "tag-only"⟩,
       ⟨"mirror-tag-2.registry-b.com", false, "tag-only"⟩]⟩
    (by rfl) rfl (by decide) rfl (by decide)

/-- Claim C7 (confirmed): a source in both pipelines yields exactly one
mirror record, whose mirrors are the digest-merged list (each endpoint
tagged digest-only) followed by the tag-merged list (each tagged
tag-only). -/
theorem c7_unified_record :
    ∀ (cfg : V2RegistriesConf) (ins blk : List String)
      (icsp idms itms : List (List MirrorEntry)) (out : V2RegistriesConf) (s : String),
      EditRegistriesConfig cfg ins blk icsp idms itms = .ok out →
      cfg.registries = [] →
      s ∈ (mergedDigestMirrorSets idms icsp).map MergedMirrorSet.source →
      s ∈ (mergedTagMirrorSets itms).map MergedMirrorSet.source →
      ∃ d ∈ mergedDigestMirrorSets idms icsp, ∃ t ∈ mergedTagMirrorSets itms,
        d.source = s ∧ t.source = s ∧
        (out.registries.filter
          (fun r => decide (r.pfx = "") && decide (r.location = s))).length = 1 ∧
        (out.registries.filter
            (fun r => decide (r.pfx = "") && decide (r.location = s))).map mirrorShape =
          [d.mirrors.map (fun m => (m, mirrorByDigestOnly)) ++
            t.mirrors.map (fun m => (m, mirrorByTagOnly))] ∧
        d.mirrors = mergedMirrorsOf (idms.flatten ++ icsp.flatten) s ∧
        t.mirrors = mergedMirrorsOf itms.flatten s := by
  intro cfg ins blk icsp idms itms out s h hcfg hd0 ht0
  obtain ⟨hval, recs1, h1, recs2, h2, husr, hreg⟩ := EditRegistriesConfig_ok h
  rcases List.mem_map.mp hd0 with ⟨d, hd, hds⟩
  obtain ⟨t, htf⟩ := tagSetFor_isSome ht0
  obtain ⟨htm, hts⟩ := tagSetFor_some htf
  have hndd : ((mergedDigestMirrorSets idms icsp).map MergedMirrorSet.source).Nodup :=
    mergedMirrorSets_sources_nodup (idms.flatten ++ icsp.flatten)
  have hbase := @baseRecords_filter_shape ins blk (mergedDigestMirrorSets idms icsp)
    (mergedTagMirrorSets itms) hndd s d hd hds t htf
  have hsbase : s ∈ (baseRecords ins blk (mergedDigestMirrorSets idms icsp)
      (mergedTagMirrorSets itms)).map Registry.location :=
    baseRecords_loc_sources ins blk _ _ s (List.mem_append_left _ hd0)
  obtain ⟨hsh1, hs1⟩ := applyScopes_shape s blk _ recs1 h1 hsbase
  obtain ⟨hsh2, _⟩ := applyScopes_shape s ins recs1 recs2 h2 hs1
  have hout : out.registries = recs2 := by rw [hreg, hcfg, List.nil_append]
  have hshape : (out.registries.filter
      (fun r => decide (r.pfx = "") && decide (r.location = s))).map mirrorShape =
      [d.mirrors.map (fun m => (m, mirrorByDigestOnly)) ++
        t.mirrors.map (fun m => (m, mirrorByTagOnly))] := by
    rw [hout, hsh2, hsh1, hbase]
  have hlen : (out.registries.filter
      (fun r => decide (r.pfx = "") && decide (r.location = s))).length = 1 := by
    have hcg := congrArg List.length hshape
    rw [List.length_map] at hcg
    exact hcg
  have hd2 : d ∈ mergedMirrorSets (idms.flatten ++ icsp.flatten) := hd
  have ht2 : t ∈ mergedMirrorSets itms.flatten := htm
  refine ⟨d, hd, t, htm, hds, hts, hlen, hshape, ?_, ?_⟩
  · rw [(mergedMirrorSets_mem hd2).1, hds]
  · rw [(mergedMirrorSets_mem ht2).1, hts]

/-- Claim C7, witness: the "imageDigestMirrorSet + imageTagMirrorSet"
test's shared source `registry-a.com`. -/
theorem c7_witness :
    ∃ d ∈ mergedDigestMirrorSets dtIdms [], ∃ t ∈ mergedTagMirrorSets dtItms,
      d.source = "registry-a.com" ∧ t.source = "registry-a.com" ∧
      (dtWant.filter (fun r => decide (r.pfx = "") &&
        decide (r.location = "registry-a.com"))).length = 1 ∧
      (dtWant.filter (fun r => decide (r.pfx = "") &&
          decide (r.location = "registry-a.com"))).map mirrorShape =
        [d.mirrors.map (fun m => (m, mirrorByDigestOnly)) ++
          t.mirrors.map (fun m => (m, mirrorByTagOnly))] ∧
      d.mirrors = mergedMirrorsOf (dtIdms.flatten ++ ([] : List (List MirrorEntry)).flatten)
        "registry-a.com" ∧
      t.mirrors = mergedMirrorsOf dtItms.flatten "registry-a.com" :=
  c7_unified_record templateConf [] [] [] dtIdms dtItms
    ⟨templateConf.unqualifiedSearchRegistries, dtWant⟩ "registry-a.com"
    (by rfl) rfl (by decide) (by decide)

/-- Claim C8 (corrected): the spec's origin-bucket grouping (ICSP, then
IDMS, then ITMS with the unified records) does not exist: mirror records
lead the output as ONE digest-pipeline block (ICSP and IDMS merged
together, unified records in place) sorted by source, followed by the
tag-only block sorted by source, then the standalone scope records. -/
theorem c8_output_order :
    ∀ (cfg : V2RegistriesConf) (ins blk : List String)
      (icsp idms itms : List (List MirrorEntry)) (out : V2RegistriesConf),
      EditRegistriesConfig cfg ins blk icsp idms itms = .ok out →
      cfg.registries = [] →
      (∃ app, out.registries.map Registry.location =
        ((mergedDigestMirrorSets idms icsp).map MergedMirrorSet.source ++
          ((mergedTagMirrorSets itms).filter
            (fun t => (mergedDigestMirrorSets idms icsp).all
              (fun d => decide (d.source ≠ t.source)))).map MergedMirrorSet.source)
          ++ app) ∧
      List.Sorted (fun a b => strLe a b = true)
        ((mergedDigestMirrorSets idms icsp).map MergedMirrorSet.source) ∧
      List.Sorted (fun a b => strLe a b = true)
        (((mergedTagMirrorSets itms).filter
          (fun t => (mergedDigestMirrorSets idms icsp).all
            (fun d => decide (d.source ≠ t.source)))).map MergedMirrorSet.source) := by
  intro cfg ins blk icsp idms itms out h hcfg
  obtain ⟨hval, recs1, h1, recs2, h2, husr, hreg⟩ := EditRegistriesConfig_ok h
  obtain ⟨app1, happ1⟩ := applyScopes_map_loc blk _ recs1 h1
  obtain ⟨app2, happ2⟩ := applyScopes_map_loc ins recs1 recs2 h2
  refine ⟨⟨app1 ++ app2, ?_⟩, mergedMirrorSets_sources_sorted _, ?_⟩
  · rw [hreg, hcfg, List.nil_append, happ2, happ1, baseRecords_map_loc, List.append_assoc]
  · exact List.Pairwise.sublist ((List.filter_sublist _).map _)
      (mergedMirrorSets_sources_sorted itms.flatten)

/-- Claim C8, counterexample to the origin grouping: in the
"mirrorSourcePolicy" test `registry-b.com` is a unified IDMS+ITMS record —
per the spec's grouping it would come after the pure-IDMS records — yet
the expected output is the plain sorted a, b, c with b before the
IDMS-only `registry-c.com`. -/
theorem c8_counterexample :
    EditRegistriesConfig templateConf [] [] [] mspIdms mspItms =
      .ok ⟨templateConf.unqualifiedSearchRegistries, mspWant⟩ ∧
    (mergedDigestMirrorSets mspIdms []).map MergedMirrorSet.source =
      ["registry-a.com", "registry-b.com", "registry-c.com"] ∧
    (mergedTagMirrorSets mspItms).map MergedMirrorSet.source = ["registry-b.com"] ∧
    mspWant.map Registry.location =
      ["registry-a.com", "registry-b.com", "registry-c.com"] ∧
    before (mspWant.map Registry.location) "registry-b.com" "registry-c.com" = true := by
  exact ⟨by rfl, by rfl, by rfl, by rfl, by decide⟩

/-- Claim C8, witness: the order statement instantiated at the
"mirrorSourcePolicy" test. -/
theorem c8_witness :
    (∃ app, mspWant.map Registry.location =
      ((mergedDigestMirrorSets mspIdms []).map MergedMirrorSet.source ++
        ((mergedTagMirrorSets mspItms).filter
          (fun t => (mergedDigestMirrorSets mspIdms []).all
            (fun d => decide (d.source ≠ t.source)))).map MergedMirrorSet.source)
        ++ app) ∧
    List.Sorted (fun a b => strLe a b = true)
      ((mergedDigestMirrorSets mspIdms []).map MergedMirrorSet.source) ∧
    List.Sorted (fun a b => strLe a b = true)
      (((mergedTagMirrorSets mspItms).filter
        (fun t => (mergedDigestMirrorSets mspIdms []).all
          (fun d => decide (d.source ≠ t.source)))).map MergedMirrorSet.source) :=
  c8_output_order templateConf [] [] [] mspIdms mspItms
    ⟨templateConf.unqualifiedSearchRegistries, mspWant⟩ (by rfl) rfl

/-- Claim C9 (corrected): the standalone scope records appended after the
mirror records are NOT sorted into four alphabetical groups; they keep the
INPUT-LIST order — a subsequence of the blocked list followed by a
subsequence of the insecure list (wildcards and non-wildcards
interleaved as given). -/
theorem c9_standalone_order :
    ∀ (cfg : V2RegistriesConf) (ins blk : List String)
      (icsp idms itms : List (List MirrorEntry)) (out : V2RegistriesConf),
      EditRegistriesConfig cfg ins blk icsp idms itms = .ok out →
      cfg.registries = [] →
      ∃ bl il, out.registries.map scopeKey =
        ((baseRecords ins blk (mergedDigestMirrorSets idms icsp)
          (mergedTagMirrorSets itms)).map Registry.location ++ bl) ++ il ∧
        bl.Sublist blk ∧ il.Sublist ins := by
  intro cfg ins blk icsp idms itms out h hcfg
  obtain ⟨hval, recs1, h1, recs2, h2, husr, hreg⟩ := EditRegistriesConfig_ok h
  obtain ⟨bl, hb1, hbsub⟩ := applyScopes_keys blk _ recs1 h1
  obtain ⟨il, hi1, hisub⟩ := applyScopes_keys ins recs1 recs2 h2
  refine ⟨bl, il, ?_, hbsub, hisub⟩
  rw [hreg, hcfg, List.nil_append, hi1, hb1, baseRecords_map_key]

/-- Claim C9, counterexample to the four-group sorted order: in the
"imageContentSourcePolicy" test the blocked wildcard scopes arrive as
`*.blocked.insecure-example.com` then `*.blocked-example.com`; ascending
order would list the latter first, but the expected output keeps the
input order. -/
theorem c9_counterexample :
    EditRegistriesConfig templateConf icspTInsecure icspTBlocked icspTRules [] [] =
      .ok ⟨templateConf.unqualifiedSearchRegistries, icspTWant⟩ ∧
    strLt "*.blocked-example.com" "*.blocked.insecure-example.com" = true ∧
    before (icspTWant.map scopeKey) "*.blocked.insecure-example.com"
      "*.blocked-example.com" = true := by
  exact ⟨by rfl, by decide, by decide⟩

/-- Claim C9, witness: the appended-keys statement instantiated at the
"imageContentSourcePolicy" test. -/
theorem c9_witness :
    ∃ bl il, icspTWant.map scopeKey =
      ((baseRecords icspTInsecure icspTBlocked (mergedDigestMirrorSets [] icspTRules)
        (mergedTagMirrorSets [])).map Registry.location ++ bl) ++ il ∧
      bl.Sublist icspTBlocked ∧ il.Sublist icspTInsecure :=
  c9_standalone_order templateConf icspTInsecure icspTBlocked icspTRules [] []
    ⟨templateConf.unqualifiedSearchRegistries, icspTWant⟩ (by rfl) rfl

/-- Claim C10 (confirmed): `mirrorsAdjustedForNestedScope` errors exactly
when the child is not nested inside the parent or the parent is a
wildcard; otherwise it appends the relative suffix (empty or starting
with '/') to every mirror location and changes nothing else; plus the
repository's test vectors. -/
theorem c10_mirrors_adjusted :
    (∀ (parentScope childScope : String) (mirrors : List Endpoint),
      ((∃ e, mirrorsAdjustedForNestedScope parentScope childScope mirrors = .error e) ↔
        (scopeIsNestedInsideScope childScope parentScope = false ∨
          isWildcardScope parentScope = true)) ∧
      (scopeIsNestedInsideScope childScope parentScope = true →
        isWildcardScope parentScope = false →
        mirrorsAdjustedForNestedScope parentScope childScope mirrors =
          .ok (mirrors.map (fun m =>
            { m with location := m.location ++ scopeSuffix parentScope childScope })) ∧
        (scopeSuffix parentScope childScope = "" ∨
          (scopeSuffix parentScope childScope).data.take 1 = ['/']))) ∧
    mirrorsAdjustedForNestedScope "mirrored.com" "unrelated.com" [] =
      .error "internal error: mismatched scopes" ∧
    mirrorsAdjustedForNestedScope "*.example.com" "*.nested.example.com" [] =
      .error "internal error: mismatched scopes" ∧
    mirrorsAdjustedForNestedScope "example.com" "example.com/subscope"
      [⟨"mirror-1.com", false, ""⟩, ⟨"example.com", false, ""⟩] =
      .ok [⟨"mirror-1.com/subscope", false, ""⟩, ⟨"example.com/subscope", false, ""⟩] := by
  refine ⟨?_, by rfl, by rfl, by rfl⟩
  intro p c mirrors
  obtain ⟨herr, hok⟩ := mirrorsAdjusted_cases p c mirrors
  constructor
  · constructor
    · intro ⟨e, he⟩
      by_contra hcon
      push_neg at hcon
      obtain ⟨h1, h2⟩ := hcon
      have hn : scopeIsNestedInsideScope c p = true := by
        rcases Bool.eq_false_or_eq_true (scopeIsNestedInsideScope c p) with hh | hh
        exacts [hh, absurd hh h1]
      have hw : isWildcardScope p = false := by
        rcases Bool.eq_false_or_eq_true (isWildcardScope p) with hh | hh
        exacts [absurd hh h2, hh]
      rw [hok hn hw] at he
      exact Except.noConfusion he
    · intro hfail
      refine ⟨"internal error: mismatched scopes", herr ?_⟩
      intro ⟨h1, h2⟩
      rcases hfail with hh | hh
      · rw [h1] at hh
        exact Bool.noConfusion hh
      · rw [h2] at hh
        exact Bool.noConfusion hh
  · intro hn hw
    exact ⟨hok hn hw, nested_concrete_suffix hn hw⟩

/-- Claim C10, witness: the error branch on unrelated scopes and the
success branch on `example.com / example.com/sub`. -/
theorem c10_witness :
    (∃ e, mirrorsAdjustedForNestedScope "mirrored.com" "unrelated.com" [] = .error e) ∧
    (mirrorsAdjustedForNestedScope "example.com" "example.com/sub"
        [⟨"m.com", false, ""⟩] =
      .ok [⟨"m.com/sub", false, ""⟩] ∧
     (scopeSuffix "example.com" "example.com/sub" = "" ∨
       (scopeSuffix "example.com" "example.com/sub").data.take 1 = ['/'])) :=
  ⟨(c10_mirrors_adjusted.1 "mirrored.com" "unrelated.com" []).1.mpr (by decide),
   (c10_mirrors_adjusted.1 "example.com" "example.com/sub" [⟨"m.com", false, ""⟩]).2
     (by decide) (by decide)⟩
